import Mathlib

/-
Verification of the batch-write retry harness, record generators, dict/wire
conversions, harness accounting, progress checkpointing, and the streaming
dedup query of this repository (ddb-map-insert.py, map-insertmany.py,
ddb-map-query.py).

Modelling conventions:
* Python dicts are association lists in insertion order.
* Python floats are represented by their canonical repr string (`PyFloat`);
  the external `float()` builtin, which parses arbitrary strings, is passed
  around as a parameter `pf : String → Option PyFloat`.
* The external `hashlib.md5` is passed as a parameter `md5 : String → String`.
* The external batch API (`batch_write_item`) is an oracle
  `env : Nat → List DDBItem → ApiResp`, giving the response to the n-th call
  of one retry loop; `ApiResp.ok u` is a normal response whose
  `UnprocessedItems[table]` list is `u` (the `PutRequest`/`Item` wrappers are
  elided), `.throttle` is a `ClientError` with code
  `ProvisionedThroughputExceededException`, `.clientErr` any other
  `ClientError`.
-/

/-- A Python float, represented by its canonical `repr`/`str` string. -/
structure PyFloat where
  s : String
deriving DecidableEq, Repr

/-- Python values that occur in the scripts' records.  `pbool` is kept
separate because in Python `isinstance(True, int)` holds and
`str(True) = "True"`; `pother` stands for every other Python type. -/
inductive PyVal where
  | pstr (s : String)
  | pbool (b : Bool)
  | pint (n : Int)
  | pfloat (f : PyFloat)
  | pother
deriving DecidableEq, Repr

/-- A Python dict in insertion order. -/
abbrev PyItem := List (String × PyVal)

/-- A DynamoDB wire-format attribute value; the scripts only ever produce
string (`S`) and number (`N`) attributes. -/
inductive DDBVal where
  | dS (s : String)
  | dN (s : String)
deriving DecidableEq, Repr

/-- A DynamoDB wire-format item. -/
abbrev DDBItem := List (String × DDBVal)

/-- The decimal digit character for `d` (`d < 10`; clamped above). -/
def digitChar (d : Nat) : Char :=
  match d with
  | 0 => '0' | 1 => '1' | 2 => '2' | 3 => '3' | 4 => '4'
  | 5 => '5' | 6 => '6' | 7 => '7' | 8 => '8' | _ => '9'

/-- Numeric value of a decimal digit character. -/
def digitVal (c : Char) : Nat := c.toNat - 48

/-- Big-endian decimal digits of `n` (fuel-based; `fuel = n+1` suffices). -/
def natDigitsAux : Nat → Nat → List Char
  | 0, _ => []
  | fuel + 1, n =>
    if n < 10 then [digitChar n]
    else natDigitsAux fuel (n / 10) ++ [digitChar (n % 10)]

/-- Python `str` on a nonnegative integer. -/
def natStr (n : Nat) : String := String.mk (natDigitsAux (n + 1) n)

/-- Python `int()` applied to a list of characters: nonempty all-digit
strings only (the scripts never feed it whitespace, `+` or underscores). -/
def parseNatChars (l : List Char) : Option Nat :=
  if l.isEmpty then none
  else if l.all Char.isDigit then
    some (l.foldl (fun a c => 10 * a + digitVal c) 0)
  else none

/-- Python `int(s)`: an optional leading minus sign, then decimal digits;
raises (here: `none`) otherwise — e.g. on `str` of any float, or "True". -/
def parseInt (s : String) : Option Int :=
  match s.data with
  | [] => none
  | c :: cs =>
    if c = '-' then (parseNatChars cs).map (fun n => -(n : Int))
    else (parseNatChars (c :: cs)).map (fun n => (n : Int))

/-- Python `str` on an `int`. -/
def intToStr : Int → String
  | .ofNat m => natStr m
  | .negSucc m => "-" ++ natStr (m + 1)

theorem digitVal_digitChar (d : Nat) (h : d < 10) : digitVal (digitChar d) = d := by
  interval_cases d <;> rfl

theorem isDigit_digitChar (d : Nat) (h : d < 10) : (digitChar d).isDigit = true := by
  interval_cases d <;> rfl

theorem natDigitsAux_spec :
    ∀ fuel n, 0 < fuel → n < 10 ^ fuel →
      natDigitsAux fuel n ≠ [] ∧
      (natDigitsAux fuel n).all Char.isDigit = true ∧
      (natDigitsAux fuel n).foldl (fun a c => 10 * a + digitVal c) 0 = n := by
  intro fuel
  induction fuel with
  | zero => intro n h; omega
  | succ f ih =>
    intro n _ hn
    by_cases h10 : n < 10
    · simp only [natDigitsAux, if_pos h10]
      refine ⟨by simp, ?_, ?_⟩
      · simp [isDigit_digitChar n h10]
      · simp [digitVal_digitChar n h10]
    · have hf : 0 < f := by
        rcases Nat.eq_zero_or_pos f with h0 | h0
        · subst h0; simp at hn; omega
        · exact h0
      have hdiv : n / 10 < 10 ^ f := by
        have : n < 10 * 10 ^ f := by
          calc n < 10 ^ (f + 1) := hn
          _ = 10 * 10 ^ f := by ring
        exact Nat.div_lt_of_lt_mul this
      obtain ⟨hne, hall, hfold⟩ := ih (n / 10) hf hdiv
      simp only [natDigitsAux, if_neg h10]
      refine ⟨by simp, ?_, ?_⟩
      · simp only [List.all_append, hall, Bool.true_and, List.all_cons, List.all_nil,
          Bool.and_true]
        exact isDigit_digitChar _ (Nat.mod_lt _ (by omega))
      · rw [List.foldl_append, hfold]
        simp only [List.foldl_cons, List.foldl_nil]
        rw [digitVal_digitChar _ (Nat.mod_lt _ (by omega))]
        omega

theorem parseNatChars_natDigits (n : Nat) :
    parseNatChars (natDigitsAux (n + 1) n) = some n := by
  have hlt : n < 10 ^ (n + 1) := by
    have h1 : n + 1 < 10 ^ (n + 1) := Nat.lt_pow_self (by omega) (n + 1)
    omega
  obtain ⟨hne, hall, hfold⟩ := natDigitsAux_spec (n + 1) n (by omega) hlt
  unfold parseNatChars
  rw [if_neg (by simpa [List.isEmpty_iff] using hne), if_pos hall, hfold]

theorem head_natDigits_isDigit (n : Nat) :
    ∃ c cs, natDigitsAux (n + 1) n = c :: cs ∧ c.isDigit = true := by
  have hlt : n < 10 ^ (n + 1) := by
    have h1 : n + 1 < 10 ^ (n + 1) := Nat.lt_pow_self (by omega) (n + 1)
    omega
  obtain ⟨hne, hall, -⟩ := natDigitsAux_spec (n + 1) n (by omega) hlt
  rcases hd : natDigitsAux (n + 1) n with - | ⟨c, cs⟩
  · exact absurd hd hne
  · refine ⟨c, cs, rfl, ?_⟩
    rw [hd, List.all_cons, Bool.and_eq_true] at hall
    exact hall.1

theorem parseInt_intToStr (n : Int) : parseInt (intToStr n) = some n := by
  cases n with
  | ofNat m =>
    obtain ⟨c, cs, hd, hdig⟩ := head_natDigits_isDigit m
    have hcne : ¬ c = '-' := by
      intro h; subst h; simp [Char.isDigit] at hdig
    simp only [intToStr, natStr, parseInt, String.data, hd, if_neg hcne]
    rw [← hd, parseNatChars_natDigits]
    simp
  | negSucc m =>
    have hdata : ("-" ++ natStr (m + 1)).data = '-' :: natDigitsAux (m + 2) (m + 1) := by
      simp [natStr, String.data_append]
    simp [intToStr, parseInt, hdata, parseNatChars_natDigits, Int.negSucc_eq]

/-- One value of `MapBulkLoader._convert_to_dynamodb_format`
(ddb-map-insert.py): `str` → `S`; `int` (which in Python includes `bool`,
with `str(True) = "True"`) → `N`; `float` → `N`; every other type has no
branch and its key is silently skipped (`none`). -/
def convertToVal : PyVal → Option DDBVal
  | .pstr s => some (.dS s)
  | .pbool b => some (.dN (if b then "True" else "False"))
  | .pint n => some (.dN (intToStr n))
  | .pfloat f => some (.dN f.s)
  | .pother => none

/-- `MapBulkLoader._convert_to_dynamodb_format` (ddb-map-insert.py). -/
def convert_to_dynamodb_format : PyItem → DDBItem
  | [] => []
  | (k, v) :: t =>
    match convertToVal v with
    | some w => (k, w) :: convert_to_dynamodb_format t
    | none => convert_to_dynamodb_format t

/-- One value of `MapBulkLoader._convert_from_dynamodb_format`
(ddb-map-insert.py): `S` → the string; `N` → `int(...)` if it parses, else
`float(...)` (the external `float()` builtin is the parameter `pf`); a
`ValueError` from both (`none`) propagates as an uncaught exception. -/
def convertFromVal (pf : String → Option PyFloat) : DDBVal → Option PyVal
  | .dS s => some (.pstr s)
  | .dN s =>
    match parseInt s with
    | some n => some (.pint n)
    | none => (pf s).map .pfloat

/-- `MapBulkLoader._convert_from_dynamodb_format` (ddb-map-insert.py);
`none` models an uncaught `ValueError`. -/
def convert_from_dynamodb_format (pf : String → Option PyFloat) : DDBItem → Option PyItem
  | [] => some []
  | (k, w) :: t =>
    match convertFromVal pf w with
    | some v => (convert_from_dynamodb_format pf t).map ((k, v) :: ·)
    | none => none

/-- The list comprehension converting every unprocessed wire item back to a
Python dict (ddb-map-insert.py line 81). -/
def convert_from_batch (pf : String → Option PyFloat) : List DDBItem → Option (List PyItem)
  | [] => some []
  | w :: ws =>
    match convert_from_dynamodb_format pf w with
    | some x => (convert_from_batch pf ws).map (x :: ·)
    | none => none

/-- A value is simple when it is a non-bool `str`/`int`/`float` whose float
repr string is faithfully parsed back by the runtime (`pf`) and is not a
valid integer literal — true of every actual Python float repr. -/
def simpleVal (pf : String → Option PyFloat) : PyVal → Bool
  | .pstr _ => true
  | .pint _ => true
  | .pfloat f => (pf f.s == some f) && (parseInt f.s == none)
  | _ => false

/-- Every value of the dict is simple. -/
def simpleItem (pf : String → Option PyFloat) (x : PyItem) : Bool :=
  x.all (fun kv => simpleVal pf kv.2)

theorem convertVal_round_trip (pf : String → Option PyFloat) (v : PyVal)
    (h : simpleVal pf v = true) :
    ∃ w, convertToVal v = some w ∧ convertFromVal pf w = some v := by
  cases v with
  | pstr s => exact ⟨.dS s, rfl, rfl⟩
  | pint n =>
    refine ⟨.dN (intToStr n), rfl, ?_⟩
    simp [convertFromVal, parseInt_intToStr]
  | pfloat f =>
    simp only [simpleVal, Bool.and_eq_true, beq_iff_eq] at h
    refine ⟨.dN f.s, rfl, ?_⟩
    simp [convertFromVal, h.1, h.2]
  | pbool b => simp [simpleVal] at h
  | pother => simp [simpleVal] at h

/-- Round trip on one simple dict: converting to DynamoDB wire format and
back is the identity. -/
theorem convert_round_trip (pf : String → Option PyFloat) (x : PyItem)
    (h : simpleItem pf x = true) :
    convert_from_dynamodb_format pf (convert_to_dynamodb_format x) = some x := by
  induction x with
  | nil => rfl
  | cons kv t ih =>
    obtain ⟨k, v⟩ := kv
    simp only [simpleItem, List.all_cons, Bool.and_eq_true] at h
    obtain ⟨w, hw, hback⟩ := convertVal_round_trip pf v h.1
    simp only [convert_to_dynamodb_format, hw, convert_from_dynamodb_format, hback,
      ih (by simpa [simpleItem] using h.2)]
    rfl

/-- The `blocks` list of `generate_random_map_element` (ddb-map-insert.py). -/
def mapBlocks : List String :=
  ["downtown_block_1", "downtown_block_2", "residential_zone_a",
   "industrial_area_b", "commercial_district_c", "suburban_area_d",
   "historic_district_e", "waterfront_zone_f", "university_campus_g",
   "park_area_h"]

/-- The `versions` list of `generate_random_map_element` (ddb-map-insert.py). -/
def mapVersions : List String := ["1.0", "1.1", "1.5", "2.0", "2.1", "3.0"]

/-- The `statuses` list of `generate_random_map_element` (ddb-map-insert.py). -/
def mapStatuses : List String :=
  ["active", "inactive", "under_construction", "maintenance", "planned"]

/-- The nondeterministic draws made by one call of
`generate_random_map_element`: the `uuid.uuid4().hex[:8]` suffix, the
`random.choice` draws (as indices into the choice lists), the rounded
`random.uniform(0, 1000)` float and the `random.randint(0, 10000)`
timestamp noise. -/
structure RandDraw where
  uuid8 : String
  verIdx : Nat
  statIdx : Nat
  attitude : PyFloat
  tsNoise : Nat
deriving DecidableEq, Repr

/-- `MapBulkLoader.generate_random_map_element` (ddb-map-insert.py), with the
current wall clock `now` (ms) and the random draws `r` made explicit. -/
def generate_random_map_element (now : Int) (index : Nat) (r : RandDraw) : PyItem :=
  [("ele", .pstr ("element_" ++ natStr index ++ "_" ++ r.uuid8)),
   ("timestamp", .pint (now - r.tsNoise)),
   ("block", .pstr (mapBlocks.getD (index % mapBlocks.length) "")),
   ("version", .pstr (mapVersions.getD (r.verIdx % mapVersions.length) "")),
   ("status", .pstr (mapStatuses.getD (r.statIdx % mapStatuses.length) "")),
   ("attitude", .pfloat r.attitude)]

/-- Python `str.zfill` for the nonnegative strings used here: left-pad with
zeros to width `w`. -/
def zfill (w : Nat) (s : String) : String :=
  String.mk (List.replicate (w - s.length) '0') ++ s

/-- The body of `generate_batch_data`'s loop (map-insertmany.py) for one
index `i`: the wire-format item (its `PutRequest` wrapper elided).  The
external clock is `current_time`, the external md5 is `md5`.  List indexing
`l[i % len(l)]` is modelled with `getD` (Python would raise on an empty
list; the callers always pass nonempty lists). -/
def mkMapItem (md5 : String → String) (current_time : Int)
    (branches tiles element_types : List String) (i : Nat) : DDBItem :=
  let branch := branches.getD (i % branches.length) ""
  let tile_base := tiles.getD ((i / 10) % tiles.length) ""
  let tile := branch ++ "#" ++ tile_base
  let element_type := element_types.getD ((i / 100) % element_types.length) ""
  let element_id := zfill 7 (natStr (i % 1000000))
  let element := element_type ++ element_id
  let element_value := "value_" ++ natStr (i % 10000000)
  let bte := branch ++ "#" ++ tile_base ++ "#" ++ element
  let element_md5 := md5 element_value
  [("bte", .dS bte),
   ("tsver", .dN (intToStr (current_time - (i % 86400000)))),
   ("branch", .dS branch),
   ("tile", .dS tile),
   ("element", .dS element),
   ("element_value", .dS element_value),
   ("element_md5", .dS element_md5)]

/-- `MapDynamoDBManager.generate_batch_data` (map-insertmany.py). -/
def generate_batch_data (md5 : String → String) (current_time : Int)
    (start_idx batch_size : Nat) (branches tiles element_types : List String) :
    List DDBItem :=
  (List.range batch_size).map
    (fun k => mkMapItem md5 current_time branches tiles element_types (start_idx + k))

/-- Drop the (time-dependent) `tsver` attribute of a wire item, keeping all
key-forming attributes. -/
def dropTsver (it : DDBItem) : DDBItem :=
  it.filter (fun kv => !(kv.1 == "tsver"))

/-- A response of the external batch API to one `batch_write_item` call:
either a normal response whose `UnprocessedItems[table]` list is `u`, a
`ClientError` with code `ProvisionedThroughputExceededException`, or any
other `ClientError`. -/
inductive ApiResp where
  | ok (u : List DDBItem)
  | throttle
  | clientErr
deriving DecidableEq, Repr

/-- How a retry loop exits: `return True`, `return False`, or an uncaught
exception (a `ValueError` escaping the wire-to-dict conversion). -/
inductive Outcome where
  | retTrue
  | retFalse
  | crash
deriving DecidableEq, Repr

/-- Observable history of one retry loop: its exit status, the wire batches
sent (one per external call, in order), the responses to them, the sleep
durations in ms (in order), the wire items the API reported processed
(a response's sent-minus-unprocessed, accumulated), and the items still
held unaccepted when the loop exits. -/
structure RunResult (α : Type) where
  outcome : Outcome
  sent : List (List DDBItem)
  resps : List ApiResp
  waits : List Nat
  processed : List DDBItem
  remaining : List α
deriving Repr

/-- The loop of `MapBulkLoader.batch_write_with_retries` (ddb-map-insert.py
lines 65–97), unrolled on the remaining retry budget `fuel = 5 - retry_count`
with `rc` the current `retry_count` (which is also the index of the next
external call, since it increments exactly once per iteration).  Per source:
an empty unprocessed list returns `True`; a nonempty one is converted back
to dicts and retried after sleeping `2 ** retry_count * 100` ms; a
throttling `ClientError` sleeps the same and retries with the same batch;
any other `ClientError` returns `False` immediately. -/
def bwrAux (pf : String → Option PyFloat) (env : Nat → List DDBItem → ApiResp) :
    Nat → Nat → List PyItem → RunResult PyItem
  | 0, _, items => ⟨.retFalse, [], [], [], [], items⟩
  | fuel + 1, rc, items =>
    let wire := items.map convert_to_dynamodb_format
    match env rc wire with
    | .ok u =>
      if u = [] then ⟨.retTrue, [wire], [.ok u], [], wire, []⟩
      else
        match convert_from_batch pf u with
        | none => ⟨.crash, [wire], [.ok u], [], wire.filter (fun w => decide (w ∉ u)), items⟩
        | some next =>
          let r := bwrAux pf env fuel (rc + 1) next
          ⟨r.outcome, wire :: r.sent, .ok u :: r.resps, (2 ^ rc * 100) :: r.waits,
           wire.filter (fun w => decide (w ∉ u)) ++ r.processed, r.remaining⟩
    | .throttle =>
      let r := bwrAux pf env fuel (rc + 1) items
      ⟨r.outcome, wire :: r.sent, .throttle :: r.resps, (2 ^ rc * 100) :: r.waits,
       r.processed, r.remaining⟩
    | .clientErr => ⟨.retFalse, [wire], [.clientErr], [], [], items⟩

/-- `MapBulkLoader.batch_write_with_retries` (ddb-map-insert.py):
`max_retries = 5`, `retry_count = 0`. -/
def batch_write_with_retries (pf : String → Option PyFloat)
    (env : Nat → List DDBItem → ApiResp) (items_batch : List PyItem) : RunResult PyItem :=
  bwrAux pf env 5 0 items_batch

/-- The loop of `MapDynamoDBManager.batch_write_with_retry`
(map-insertmany.py lines 128–160), unrolled on `fuel = 5 - retries`, with
`rc` the index of the next external call and `b` the current
`backoff_time` in ms.  Per source: an empty unprocessed set returns
`True`; a nonempty one becomes the next request, and if budget remains the
loop sleeps `b` then doubles it capped at 1000; a throttling error sleeps
`b` then doubles it capped at 2000; any *other* `ClientError` also counts
against the budget, returning `False` only when it is exhausted, and
sleeps `b` without doubling it. -/
def bwr2Aux (env : Nat → List DDBItem → ApiResp) :
    Nat → Nat → Nat → List DDBItem → RunResult DDBItem
  | 0, _, _, items => ⟨.retFalse, [], [], [], [], items⟩
  | fuel + 1, rc, b, items =>
    match env rc items with
    | .ok u =>
      if u = [] then ⟨.retTrue, [items], [.ok u], [], items, []⟩
      else if fuel = 0 then
        ⟨.retFalse, [items], [.ok u], [], items.filter (fun w => decide (w ∉ u)), u⟩
      else
        let r := bwr2Aux env fuel (rc + 1) (min (b * 2) 1000) u
        ⟨r.outcome, items :: r.sent, .ok u :: r.resps, b :: r.waits,
         items.filter (fun w => decide (w ∉ u)) ++ r.processed, r.remaining⟩
    | .throttle =>
      if fuel = 0 then ⟨.retFalse, [items], [.throttle], [], [], items⟩
      else
        let r := bwr2Aux env fuel (rc + 1) (min (b * 2) 2000) items
        ⟨r.outcome, items :: r.sent, .throttle :: r.resps, b :: r.waits,
         r.processed, r.remaining⟩
    | .clientErr =>
      if fuel = 0 then ⟨.retFalse, [items], [.clientErr], [], [], items⟩
      else
        let r := bwr2Aux env fuel (rc + 1) b items
        ⟨r.outcome, items :: r.sent, .clientErr :: r.resps, b :: r.waits,
         r.processed, r.remaining⟩

/-- `MapDynamoDBManager.batch_write_with_retry` (map-insertmany.py):
`max_retries = 5`, `retries = 0`, `backoff_time = 50`. -/
def batch_write_with_retry (env : Nat → List DDBItem → ApiResp)
    (items : List DDBItem) : RunResult DDBItem :=
  bwr2Aux env 5 0 50 items

/-- The external batch API only ever reports as unprocessed a subset of the
requests of the call it is answering (spec §6). -/
def envReportsSubset (env : Nat → List DDBItem → ApiResp) : Prop :=
  ∀ i s u, env i s = .ok u → ∀ w ∈ u, w ∈ s

theorem convert_pullback (pf : String → Option PyFloat) (items : List PyItem)
    (u : List DDBItem) (hs : ∀ x ∈ items, simpleItem pf x = true)
    (hu : ∀ w ∈ u, w ∈ items.map convert_to_dynamodb_format) :
    ∃ next, convert_from_batch pf u = some next ∧
      next.map convert_to_dynamodb_format = u ∧ ∀ y ∈ next, y ∈ items := by
  induction u with
  | nil => exact ⟨[], rfl, rfl, by simp⟩
  | cons w ws ih =>
    obtain ⟨x, hx, hxw⟩ := List.mem_map.mp (hu w (by simp))
    obtain ⟨next', h1, h2, h3⟩ := ih (fun w' hw' => hu w' (by simp [hw']))
    have hrt : convert_from_dynamodb_format pf w = some x := by
      rw [← hxw]; exact convert_round_trip pf x (hs x hx)
    refine ⟨x :: next', ?_, ?_, ?_⟩
    · simp [convert_from_batch, hrt, h1]
    · simp [h2, hxw]
    · intro y hy
      rcases List.mem_cons.mp hy with h | h
      · exact h ▸ hx
      · exact h3 y h

theorem mem_of_convert_mem (pf : String → Option PyFloat) (items next : List PyItem)
    (u : List DDBItem) (hs : ∀ x ∈ items, simpleItem pf x = true)
    (h2 : next.map convert_to_dynamodb_format = u) (h3 : ∀ y ∈ next, y ∈ items)
    (x : PyItem) (hx : x ∈ items) (hcx : convert_to_dynamodb_format x ∈ u) : x ∈ next := by
  rw [← h2] at hcx
  obtain ⟨y, hy, hconv⟩ := List.mem_map.mp hcx
  have hy1 := convert_round_trip pf y (hs y (h3 y hy))
  have hx1 := convert_round_trip pf x (hs x hx)
  rw [hconv] at hy1
  rw [hy1] at hx1
  exact (Option.some_injective _ hx1) ▸ hy

theorem bwrAux_invariant (pf : String → Option PyFloat)
    (env : Nat → List DDBItem → ApiResp) (h1 : envReportsSubset env) :
    ∀ fuel rc items, (∀ x ∈ items, simpleItem pf x = true) →
      (bwrAux pf env fuel rc items).outcome ≠ .crash ∧
      (∀ x ∈ (bwrAux pf env fuel rc items).remaining, x ∈ items) ∧
      ((bwrAux pf env fuel rc items).outcome = .retTrue →
        (bwrAux pf env fuel rc items).remaining = []) ∧
      ((bwrAux pf env fuel rc items).outcome = .retTrue → ∀ x ∈ items,
        convert_to_dynamodb_format x ∈ (bwrAux pf env fuel rc items).processed) ∧
      (items ≠ [] → (bwrAux pf env fuel rc items).outcome = .retFalse →
        (bwrAux pf env fuel rc items).remaining ≠ []) ∧
      (∀ x ∈ (bwrAux pf env fuel rc items).remaining,
        convert_to_dynamodb_format x ∉ (bwrAux pf env fuel rc items).processed) ∧
      (∀ x ∈ items, convert_to_dynamodb_format x ∈ (bwrAux pf env fuel rc items).processed ∨
        x ∈ (bwrAux pf env fuel rc items).remaining) := by
  intro fuel
  induction fuel with
  | zero =>
    intro rc items hs
    simp [bwrAux]
  | succ f ih =>
    intro rc items hs
    rcases henv : env rc (items.map convert_to_dynamodb_format) with u | - | -
    · by_cases hu0 : u = []
      · subst hu0
        simp only [bwrAux, henv]
        refine ⟨by simp, by simp, by simp, ?_, by simp, by simp, ?_⟩
        · exact fun _ x hx => List.mem_map.mpr ⟨x, hx, rfl⟩
        · exact fun x hx => Or.inl (List.mem_map.mpr ⟨x, hx, rfl⟩)
      · have hu : ∀ w ∈ u, w ∈ items.map convert_to_dynamodb_format :=
          h1 rc _ u henv
        obtain ⟨next, hcb, hmap, hsub⟩ := convert_pullback pf items u hs hu
        have hs' : ∀ y ∈ next, simpleItem pf y = true := fun y hy => hs y (hsub y hy)
        obtain ⟨i1, i2, i3, i4, i5, i6, i7⟩ := ih (rc + 1) next hs'
        have hnextne : next ≠ [] := by
          intro h
          rw [h] at hmap
          exact hu0 hmap.symm
        simp only [bwrAux, henv, if_neg hu0, hcb]
        refine ⟨i1, ?_, i3, ?_, ?_, ?_, ?_⟩
        · intro x hx
          exact hsub x (i2 x hx)
        · intro ht x hx
          by_cases hcx : convert_to_dynamodb_format x ∈ u
          · have hxn : x ∈ next := mem_of_convert_mem pf items next u hs hmap hsub x hx hcx
            simp only [List.mem_append]
            exact Or.inr (i4 ht x hxn)
          · simp only [List.mem_append, List.mem_filter, List.mem_map, decide_eq_true_iff]
            exact Or.inl ⟨⟨x, hx, rfl⟩, hcx⟩
        · exact fun _ hfalse => i5 hnextne hfalse
        · intro x hx
          have hxn : x ∈ next := i2 x hx
          have hcxu : convert_to_dynamodb_format x ∈ u := by
            rw [← hmap]
            exact List.mem_map.mpr ⟨x, hxn, rfl⟩
          simp only [List.mem_append, List.mem_filter, decide_eq_true_iff, not_or, not_and]
          exact ⟨fun _ h => h hcxu, i6 x hx⟩
        · intro x hx
          by_cases hcx : convert_to_dynamodb_format x ∈ u
          · have hxn : x ∈ next := mem_of_convert_mem pf items next u hs hmap hsub x hx hcx
            rcases i7 x hxn with h | h
            · exact Or.inl (by simp only [List.mem_append]; exact Or.inr h)
            · exact Or.inr h
          · refine Or.inl ?_
            simp only [List.mem_append, List.mem_filter, List.mem_map, decide_eq_true_iff]
            exact Or.inl ⟨⟨x, hx, rfl⟩, hcx⟩
    · obtain ⟨i1, i2, i3, i4, i5, i6, i7⟩ := ih (rc + 1) items hs
      simp only [bwrAux, henv]
      exact ⟨i1, i2, i3, i4, i5, i6, i7⟩
    · simp only [bwrAux, henv]
      refine ⟨by simp, by simp, by simp, by simp, ?_, by simp, ?_⟩
      · exact fun hne _ => hne
      · exact fun x hx => Or.inr hx

theorem bwr2Aux_invariant (env : Nat → List DDBItem → ApiResp)
    (h1 : envReportsSubset env) :
    ∀ fuel rc b items,
      (∀ x ∈ (bwr2Aux env fuel rc b items).remaining, x ∈ items) ∧
      ((bwr2Aux env fuel rc b items).outcome = .retTrue → ∀ x ∈ items,
        x ∈ (bwr2Aux env fuel rc b items).processed) ∧
      (items ≠ [] → (bwr2Aux env fuel rc b items).outcome = .retFalse →
        (bwr2Aux env fuel rc b items).remaining ≠ []) ∧
      (∀ x ∈ (bwr2Aux env fuel rc b items).remaining,
        x ∉ (bwr2Aux env fuel rc b items).processed) ∧
      (∀ x ∈ items, x ∈ (bwr2Aux env fuel rc b items).processed ∨
        x ∈ (bwr2Aux env fuel rc b items).remaining) ∧
      ((bwr2Aux env fuel rc b items).outcome ≠ .crash) := by
  intro fuel
  induction fuel with
  | zero =>
    intro rc b items
    simp [bwr2Aux]
  | succ f ih =>
    intro rc b items
    rcases henv : env rc items with u | - | -
    · by_cases hu0 : u = []
      · subst hu0
        simp only [bwr2Aux, henv]
        refine ⟨by simp, ?_, by simp, by simp, ?_, by simp⟩
        · exact fun _ x hx => hx
        · exact fun x hx => Or.inl hx
      · have husub : ∀ w ∈ u, w ∈ items := h1 rc items u henv
        by_cases hf0 : f = 0
        · subst hf0
          simp only [bwr2Aux, henv, if_neg hu0, if_pos rfl]
          refine ⟨husub, ?_, ?_, ?_, ?_, by simp⟩
          · intro h; simp at h
          · exact fun _ _ => hu0
          · intro x hx
            show x ∉ items.filter (fun w => decide (w ∉ u))
            simp only [List.mem_filter, decide_eq_true_iff, not_and]
            exact fun _ h => h hx
          · intro x hx
            by_cases hxu : x ∈ u
            · exact Or.inr hxu
            · refine Or.inl ?_
              show x ∈ items.filter (fun w => decide (w ∉ u))
              simp only [List.mem_filter, decide_eq_true_iff]
              exact ⟨hx, hxu⟩
        · obtain ⟨i1, i2, i3, i4, i5, i6⟩ := ih (rc + 1) (min (b * 2) 1000) u
          simp only [bwr2Aux, henv, if_neg hu0, if_neg hf0]
          refine ⟨?_, ?_, ?_, ?_, ?_, i6⟩
          · exact fun x hx => husub x (i1 x hx)
          · intro ht x hx
            by_cases hxu : x ∈ u
            · exact List.mem_append.mpr (Or.inr (i2 ht x hxu))
            · refine List.mem_append.mpr (Or.inl ?_)
              simp only [List.mem_filter, decide_eq_true_iff]
              exact ⟨hx, hxu⟩
          · exact fun _ hfalse => i3 hu0 hfalse
          · intro x hx
            have hxu : x ∈ u := i1 x hx
            simp only [List.mem_append, List.mem_filter, decide_eq_true_iff, not_or, not_and]
            exact ⟨fun _ h => h hxu, i4 x hx⟩
          · intro x hx
            by_cases hxu : x ∈ u
            · rcases i5 x hxu with h | h
              · exact Or.inl (List.mem_append.mpr (Or.inr h))
              · exact Or.inr h
            · refine Or.inl (List.mem_append.mpr (Or.inl ?_))
              simp only [List.mem_filter, decide_eq_true_iff]
              exact ⟨hx, hxu⟩
    · by_cases hf0 : f = 0
      · subst hf0
        simp only [bwr2Aux, henv, if_pos rfl]
        refine ⟨fun x hx => hx, by simp, ?_, by simp, ?_, by simp⟩
        · exact fun hne _ => hne
        · exact fun x hx => Or.inr hx
      · obtain ⟨i1, i2, i3, i4, i5, i6⟩ := ih (rc + 1) (min (b * 2) 2000) items
        simp only [bwr2Aux, henv, if_neg hf0]
        exact ⟨i1, i2, i3, i4, i5, i6⟩
    · by_cases hf0 : f = 0
      · subst hf0
        simp only [bwr2Aux, henv, if_pos rfl]
        refine ⟨fun x hx => hx, by simp, ?_, by simp, ?_, by simp⟩
        · exact fun hne _ => hne
        · exact fun x hx => Or.inr hx
      · obtain ⟨i1, i2, i3, i4, i5, i6⟩ := ih (rc + 1) b items
        simp only [bwr2Aux, henv, if_neg hf0]
        exact ⟨i1, i2, i3, i4, i5, i6⟩

/-- The wire items a given attempt's response reported processed:
what was sent minus what came back unprocessed (empty for error attempts). -/
def processedAt {α : Type} (r : RunResult α) (i : Nat) : List DDBItem :=
  match r.resps.get? i, r.sent.get? i with
  | some (.ok u), some s => s.filter (fun w => decide (w ∉ u))
  | _, _ => []

theorem bwrAux_trace (pf : String → Option PyFloat)
    (env : Nat → List DDBItem → ApiResp) (h1 : envReportsSubset env) :
    ∀ fuel rc items, (∀ x ∈ items, simpleItem pf x = true) →
      (bwrAux pf env fuel rc items).resps.length = (bwrAux pf env fuel rc items).sent.length ∧
      ((bwrAux pf env fuel rc items).sent.get? 0 =
          some (items.map convert_to_dynamodb_format) ∨
        (bwrAux pf env fuel rc items).sent = []) ∧
      (∀ j s, (bwrAux pf env fuel rc items).sent.get? j = some s →
        (bwrAux pf env fuel rc items).resps.get? j = some (env (rc + j) s)) ∧
      (∀ j u, (bwrAux pf env fuel rc items).resps.get? j = some (.ok u) →
        j + 1 < (bwrAux pf env fuel rc items).sent.length →
        (bwrAux pf env fuel rc items).sent.get? (j + 1) = some u) ∧
      (∀ j, (bwrAux pf env fuel rc items).resps.get? j = some .throttle →
        j + 1 < (bwrAux pf env fuel rc items).sent.length →
        (bwrAux pf env fuel rc items).sent.get? (j + 1) =
          (bwrAux pf env fuel rc items).sent.get? j) ∧
      (∀ j, (bwrAux pf env fuel rc items).resps.get? j = some .clientErr →
        (bwrAux pf env fuel rc items).sent.length = j + 1 ∧
        (bwrAux pf env fuel rc items).outcome = .retFalse ∧
        (bwrAux pf env fuel rc items).waits.length = j) ∧
      (∀ n w, (bwrAux pf env fuel rc items).waits.get? n = some w →
        w = 2 ^ (rc + n) * 100) := by
  intro fuel
  induction fuel with
  | zero =>
    intro rc items hs
    simp [bwrAux]
  | succ f ih =>
    intro rc items hs
    rcases henv : env rc (items.map convert_to_dynamodb_format) with u | - | -
    · by_cases hu0 : u = []
      · subst hu0
        simp only [bwrAux, henv]
        refine ⟨rfl, Or.inl rfl, ?_, ?_, ?_, ?_, ?_⟩
        · intro j s hj
          match j with
          | 0 =>
            have hj2 : some (items.map convert_to_dynamodb_format) = some s := hj
            have hs2 := Option.some_injective _ hj2
            show some (ApiResp.ok []) = some (env (rc + 0) s)
            rw [← hs2, Nat.add_zero, henv]
          | j + 1 => simp at hj
        · intro j u hj hlt
          match j with
          | 0 => simp at hlt
          | j + 1 => simp at hj
        · intro j hj
          match j with
          | 0 => simp at hj
          | j + 1 => simp at hj
        · intro j hj
          match j with
          | 0 => simp at hj
          | j + 1 => simp at hj
        · intro n w hw
          simp at hw
      · have hu : ∀ w ∈ u, w ∈ items.map convert_to_dynamodb_format :=
          h1 rc _ u henv
        obtain ⟨next, hcb, hmap, hsub⟩ := convert_pullback pf items u hs hu
        have hs' : ∀ y ∈ next, simpleItem pf y = true := fun y hy => hs y (hsub y hy)
        obtain ⟨t1, t2, t3, t4, t5, t6, t7⟩ := ih (rc + 1) next hs'
        simp only [bwrAux, henv, if_neg hu0, hcb]
        refine ⟨?_, Or.inl rfl, ?_, ?_, ?_, ?_, ?_⟩
        · simp only [List.length_cons, t1]
        · intro j s hj
          match j with
          | 0 =>
            simp only [List.get?_cons_zero, Option.some_inj] at hj
            subst hj
            simp [henv]
          | j + 1 =>
            simp only [List.get?_cons_succ] at hj ⊢
            have := t3 j s hj
            rw [this]
            ring_nf
        · intro j u2 hj hlt
          match j with
          | 0 =>
            simp only [List.get?_cons_zero, Option.some_inj, ApiResp.ok.injEq] at hj
            subst hj
            simp only [List.length_cons] at hlt
            have hne : (bwrAux pf env f (rc + 1) next).sent ≠ [] := by
              intro h
              rw [h] at hlt
              simp at hlt
            rcases t2 with h2 | h2
            · simp only [List.get?_cons_succ]
              rw [h2, hmap]
            · exact absurd h2 hne
          | j + 1 =>
            simp only [List.get?_cons_succ] at hj ⊢
            simp only [List.length_cons] at hlt
            exact t4 j u2 hj (by omega)
        · intro j hj hlt
          match j with
          | 0 => simp at hj
          | j + 1 =>
            simp only [List.get?_cons_succ] at hj ⊢
            simp only [List.length_cons] at hlt
            exact t5 j hj (by omega)
        · intro j hj
          match j with
          | 0 => simp at hj
          | j + 1 =>
            simp only [List.get?_cons_succ] at hj
            obtain ⟨e1, e2, e3⟩ := t6 j hj
            exact ⟨by simp [e1], e2, by simp [e3]⟩
        · intro n w hw
          match n with
          | 0 =>
            simp only [List.get?_cons_zero, Option.some_inj] at hw
            rw [Nat.add_zero]
            omega
          | n + 1 =>
            simp only [List.get?_cons_succ] at hw
            have := t7 n w hw
            rw [this]
            ring_nf
    · obtain ⟨t1, t2, t3, t4, t5, t6, t7⟩ := ih (rc + 1) items hs
      simp only [bwrAux, henv]
      refine ⟨?_, Or.inl rfl, ?_, ?_, ?_, ?_, ?_⟩
      · simp only [List.length_cons, t1]
      · intro j s hj
        match j with
        | 0 =>
          simp only [List.get?_cons_zero, Option.some_inj] at hj
          subst hj
          simp [henv]
        | j + 1 =>
          simp only [List.get?_cons_succ] at hj ⊢
          have := t3 j s hj
          rw [this]
          ring_nf
      · intro j u2 hj hlt
        match j with
        | 0 => simp at hj
        | j + 1 =>
          simp only [List.get?_cons_succ] at hj ⊢
          simp only [List.length_cons] at hlt
          exact t4 j u2 hj (by omega)
      · intro j hj hlt
        match j with
        | 0 =>
          simp only [List.length_cons] at hlt
          have hne : (bwrAux pf env f (rc + 1) items).sent ≠ [] := by
            intro h
            rw [h] at hlt
            simp at hlt
          rcases t2 with h2 | h2
          · simp only [List.get?_cons_succ, List.get?_cons_zero]
            rw [h2]
          · exact absurd h2 hne
        | j + 1 =>
          simp only [List.get?_cons_succ] at hj ⊢
          simp only [List.length_cons] at hlt
          exact t5 j hj (by omega)
      · intro j hj
        match j with
        | 0 => simp at hj
        | j + 1 =>
          simp only [List.get?_cons_succ] at hj
          obtain ⟨e1, e2, e3⟩ := t6 j hj
          exact ⟨by simp [e1], e2, by simp [e3]⟩
      · intro n w hw
        match n with
        | 0 =>
          simp only [List.get?_cons_zero, Option.some_inj] at hw
          rw [Nat.add_zero]
          omega
        | n + 1 =>
          simp only [List.get?_cons_succ] at hw
          have := t7 n w hw
          rw [this]
          ring_nf
    · simp only [bwrAux, henv]
      refine ⟨rfl, Or.inl rfl, ?_, ?_, ?_, ?_, ?_⟩
      · intro j s hj
        match j with
        | 0 =>
          simp only [List.get?_cons_zero, Option.some_inj] at hj
          subst hj
          simp [henv]
        | j + 1 => simp at hj
      · intro j u2 hj hlt
        match j with
        | 0 => simp at hj
        | j + 1 => simp at hj
      · intro j hj hlt
        match j with
        | 0 => simp at hj
        | j + 1 => simp at hj
      · intro j hj
        match j with
        | 0 => simp
        | j + 1 => simp at hj
      · intro n w hw
        simp at hw

theorem bwr2Aux_trace (env : Nat → List DDBItem → ApiResp) :
    ∀ fuel rc b items,
      (bwr2Aux env fuel rc b items).resps.length =
        (bwr2Aux env fuel rc b items).sent.length ∧
      ((bwr2Aux env fuel rc b items).sent.get? 0 = some items ∨
        (bwr2Aux env fuel rc b items).sent = []) ∧
      (∀ j s, (bwr2Aux env fuel rc b items).sent.get? j = some s →
        (bwr2Aux env fuel rc b items).resps.get? j = some (env (rc + j) s)) ∧
      (∀ j u, (bwr2Aux env fuel rc b items).resps.get? j = some (.ok u) →
        j + 1 < (bwr2Aux env fuel rc b items).sent.length →
        (bwr2Aux env fuel rc b items).sent.get? (j + 1) = some u) ∧
      (∀ j, ((bwr2Aux env fuel rc b items).resps.get? j = some .throttle ∨
          (bwr2Aux env fuel rc b items).resps.get? j = some .clientErr) →
        j + 1 < (bwr2Aux env fuel rc b items).sent.length →
        (bwr2Aux env fuel rc b items).sent.get? (j + 1) =
          (bwr2Aux env fuel rc b items).sent.get? j) := by
  intro fuel
  induction fuel with
  | zero =>
    intro rc b items
    simp [bwr2Aux]
  | succ f ih =>
    intro rc b items
    rcases henv : env rc items with u | - | -
    · by_cases hu0 : u = []
      · subst hu0
        simp only [bwr2Aux, henv]
        refine ⟨rfl, Or.inl rfl, ?_, ?_, ?_⟩
        · intro j s hj
          match j with
          | 0 =>
            have hj2 : some items = some s := hj
            have hs2 := Option.some_injective _ hj2
            show some (ApiResp.ok []) = some (env (rc + 0) s)
            rw [← hs2, Nat.add_zero, henv]
          | j + 1 => simp at hj
        · intro j u2 hj hlt
          match j with
          | 0 => simp at hlt
          | j + 1 => simp at hj
        · intro j hj hlt
          match j with
          | 0 => simp at hlt
          | j + 1 => rcases hj with hj | hj <;> simp at hj
      · by_cases hf0 : f = 0
        · subst hf0
          simp only [bwr2Aux, henv, if_neg hu0, if_pos rfl]
          refine ⟨rfl, Or.inl rfl, ?_, ?_, ?_⟩
          · intro j s hj
            match j with
            | 0 =>
              have hj2 : some items = some s := hj
              have hs2 := Option.some_injective _ hj2
              show some (ApiResp.ok u) = some (env (rc + 0) s)
              rw [← hs2, Nat.add_zero, henv]
            | j + 1 => simp at hj
          · intro j u2 hj hlt
            match j with
            | 0 => simp at hlt
            | j + 1 => simp at hj
          · intro j hj hlt
            match j with
            | 0 => simp at hlt
            | j + 1 => rcases hj with hj | hj <;> simp at hj
        · obtain ⟨t1, t2, t3, t4, t5⟩ := ih (rc + 1) (min (b * 2) 1000) u
          simp only [bwr2Aux, henv, if_neg hu0, if_neg hf0]
          refine ⟨by simp only [List.length_cons, t1], Or.inl rfl, ?_, ?_, ?_⟩
          · intro j s hj
            match j with
            | 0 =>
              have hj2 : some items = some s := hj
              have hs2 := Option.some_injective _ hj2
              show some (ApiResp.ok u) = some (env (rc + 0) s)
              rw [← hs2, Nat.add_zero, henv]
            | j + 1 =>
              simp only [List.get?_cons_succ] at hj ⊢
              have := t3 j s hj
              rw [this]
              ring_nf
          · intro j u2 hj hlt
            match j with
            | 0 =>
              have hj2 : some (ApiResp.ok u) = some (.ok u2) := hj
              have hu2 : u = u2 := ApiResp.ok.inj (Option.some_injective _ hj2)
              subst hu2
              simp only [List.length_cons] at hlt
              have hne : (bwr2Aux env f (rc + 1) (min (b * 2) 1000) u).sent ≠ [] := by
                intro h
                rw [h] at hlt
                simp at hlt
              rcases t2 with h2 | h2
              · simp only [List.get?_cons_succ]
                exact h2
              · exact absurd h2 hne
            | j + 1 =>
              simp only [List.get?_cons_succ] at hj ⊢
              simp only [List.length_cons] at hlt
              exact t4 j u2 hj (by omega)
          · intro j hj hlt
            match j with
            | 0 =>
              rcases hj with hj | hj <;>
                · have hj2 : some (ApiResp.ok u) = _ := hj
                  simp at hj2
            | j + 1 =>
              simp only [List.get?_cons_succ] at hj ⊢
              simp only [List.length_cons] at hlt
              exact t5 j hj (by omega)
    · by_cases hf0 : f = 0
      · subst hf0
        simp only [bwr2Aux, henv, if_pos rfl]
        refine ⟨rfl, Or.inl rfl, ?_, ?_, ?_⟩
        · intro j s hj
          match j with
          | 0 =>
            have hj2 : some items = some s := hj
            have hs2 := Option.some_injective _ hj2
            show some ApiResp.throttle = some (env (rc + 0) s)
            rw [← hs2, Nat.add_zero, henv]
          | j + 1 => simp at hj
        · intro j u2 hj hlt
          match j with
          | 0 => simp at hlt
          | j + 1 => simp at hj
        · intro j hj hlt
          match j with
          | 0 => simp at hlt
          | j + 1 => rcases hj with hj | hj <;> simp at hj
      · obtain ⟨t1, t2, t3, t4, t5⟩ := ih (rc + 1) (min (b * 2) 2000) items
        simp only [bwr2Aux, henv, if_neg hf0]
        refine ⟨by simp only [List.length_cons, t1], Or.inl rfl, ?_, ?_, ?_⟩
        · intro j s hj
          match j with
          | 0 =>
            have hj2 : some items = some s := hj
            have hs2 := Option.some_injective _ hj2
            show some ApiResp.throttle = some (env (rc + 0) s)
            rw [← hs2, Nat.add_zero, henv]
          | j + 1 =>
            simp only [List.get?_cons_succ] at hj ⊢
            have := t3 j s hj
            rw [this]
            ring_nf
        · intro j u2 hj hlt
          match j with
          | 0 => simp at hj
          | j + 1 =>
            simp only [List.get?_cons_succ] at hj ⊢
            simp only [List.length_cons] at hlt
            exact t4 j u2 hj (by omega)
        · intro j hj hlt
          match j with
          | 0 =>
            simp only [List.length_cons] at hlt
            have hne : (bwr2Aux env f (rc + 1) (min (b * 2) 2000) items).sent ≠ [] := by
              intro h
              rw [h] at hlt
              simp at hlt
            rcases t2 with h2 | h2
            · simp only [List.get?_cons_succ, List.get?_cons_zero]
              exact h2
            · exact absurd h2 hne
          | j + 1 =>
            simp only [List.get?_cons_succ] at hj ⊢
            simp only [List.length_cons] at hlt
            exact t5 j hj (by omega)
    · by_cases hf0 : f = 0
      · subst hf0
        simp only [bwr2Aux, henv, if_pos rfl]
        refine ⟨rfl, Or.inl rfl, ?_, ?_, ?_⟩
        · intro j s hj
          match j with
          | 0 =>
            have hj2 : some items = some s := hj
            have hs2 := Option.some_injective _ hj2
            show some ApiResp.clientErr = some (env (rc + 0) s)
            rw [← hs2, Nat.add_zero, henv]
          | j + 1 => simp at hj
        · intro j u2 hj hlt
          match j with
          | 0 => simp at hlt
          | j + 1 => simp at hj
        · intro j hj hlt
          match j with
          | 0 => simp at hlt
          | j + 1 => rcases hj with hj | hj <;> simp at hj
      · obtain ⟨t1, t2, t3, t4, t5⟩ := ih (rc + 1) b items
        simp only [bwr2Aux, henv, if_neg hf0]
        refine ⟨by simp only [List.length_cons, t1], Or.inl rfl, ?_, ?_, ?_⟩
        · intro j s hj
          match j with
          | 0 =>
            have hj2 : some items = some s := hj
            have hs2 := Option.some_injective _ hj2
            show some ApiResp.clientErr = some (env (rc + 0) s)
            rw [← hs2, Nat.add_zero, henv]
          | j + 1 =>
            simp only [List.get?_cons_succ] at hj ⊢
            have := t3 j s hj
            rw [this]
            ring_nf
        · intro j u2 hj hlt
          match j with
          | 0 => simp at hj
          | j + 1 =>
            simp only [List.get?_cons_succ] at hj ⊢
            simp only [List.length_cons] at hlt
            exact t4 j u2 hj (by omega)
        · intro j hj hlt
          match j with
          | 0 =>
            simp only [List.length_cons] at hlt
            have hne : (bwr2Aux env f (rc + 1) b items).sent ≠ [] := by
              intro h
              rw [h] at hlt
              simp at hlt
            rcases t2 with h2 | h2
            · simp only [List.get?_cons_succ, List.get?_cons_zero]
              exact h2
            · exact absurd h2 hne
          | j + 1 =>
            simp only [List.get?_cons_succ] at hj ⊢
            simp only [List.length_cons] at hlt
            exact t5 j hj (by omega)

theorem trace_latest_report (sent : List (List DDBItem)) (resps : List ApiResp)
    (t1 : resps.length = sent.length)
    (t4 : ∀ j u, resps.get? j = some (.ok u) → j + 1 < sent.length →
      sent.get? (j + 1) = some u)
    (tpass : ∀ j, (resps.get? j = some .throttle ∨ resps.get? j = some .clientErr) →
      j + 1 < sent.length → sent.get? (j + 1) = sent.get? j) :
    ∀ i u, resps.get? i = some (.ok u) →
      ∀ j, i < j → j < sent.length →
        (∀ m u2, i < m → m < j → resps.get? m ≠ some (.ok u2)) →
        sent.get? j = some u := by
  intro i u hresp j
  induction j with
  | zero => omega
  | succ j ihj =>
    intro hij hjlen hno
    rcases Nat.lt_or_ge i j with hij2 | hge
    · have hjlt : j < sent.length := by omega
      have hjr : j < resps.length := by rw [t1]; exact hjlt
      rcases ha2 : resps.get ⟨j, hjr⟩ with u2 | - | -
      · exact absurd (by rw [List.get?_eq_get hjr, ha2])
          (hno j u2 hij2 (by omega))
      · rw [tpass j (Or.inl (by rw [List.get?_eq_get hjr, ha2])) hjlen]
        exact ihj hij2 hjlt (fun m u2 hm1 hm2 => hno m u2 hm1 (by omega))
      · rw [tpass j (Or.inr (by rw [List.get?_eq_get hjr, ha2])) hjlen]
        exact ihj hij2 hjlt (fun m u2 hm1 hm2 => hno m u2 hm1 (by omega))
    · have hij3 : i = j := by omega
      subst hij3
      exact t4 i u hresp hjlen

theorem trace_tail_subset (sent : List (List DDBItem)) (resps : List ApiResp)
    (t1 : resps.length = sent.length)
    (t4 : ∀ j u, resps.get? j = some (.ok u) → j + 1 < sent.length →
      sent.get? (j + 1) = some u)
    (tpass : ∀ j, (resps.get? j = some .throttle ∨ resps.get? j = some .clientErr) →
      j + 1 < sent.length → sent.get? (j + 1) = sent.get? j)
    (tok : ∀ j u s, resps.get? j = some (.ok u) → sent.get? j = some s →
      ∀ y ∈ u, y ∈ s) :
    ∀ i u, resps.get? i = some (.ok u) →
      ∀ j s, i < j → sent.get? j = some s → ∀ y ∈ s, y ∈ u := by
  intro i u hresp j
  induction j with
  | zero => omega
  | succ j ihj =>
    intro s hij hs y hy
    have hjlen : j + 1 < sent.length := by
      obtain ⟨h, -⟩ := List.get?_eq_some.mp hs
      exact h
    rcases Nat.lt_or_ge i j with hij2 | hge
    · have hjlt : j < sent.length := by omega
      have hjr : j < resps.length := by rw [t1]; exact hjlt
      have hs' : sent.get? j = some (sent.get ⟨j, hjlt⟩) := List.get?_eq_get hjlt
      rcases ha2 : resps.get ⟨j, hjr⟩ with u2 | - | -
      · have hrespj : resps.get? j = some (.ok u2) := by
          rw [List.get?_eq_get hjr, ha2]
        have hstep := t4 j u2 hrespj hjlen
        rw [hs] at hstep
        have hsu2 : s = u2 := Option.some_injective _ hstep
        subst hsu2
        exact ihj _ hij2 hs' y (tok j s _ hrespj hs' y hy)
      · have hstep := tpass j (Or.inl (by rw [List.get?_eq_get hjr, ha2])) hjlen
        rw [hs, hs'] at hstep
        have := Option.some_injective _ hstep
        exact ihj _ hij2 hs' y (this ▸ hy)
      · have hstep := tpass j (Or.inr (by rw [List.get?_eq_get hjr, ha2])) hjlen
        rw [hs, hs'] at hstep
        have := Option.some_injective _ hstep
        exact ihj _ hij2 hs' y (this ▸ hy)
    · have hij3 : i = j := by omega
      subst hij3
      have hstep := t4 i u hresp hjlen
      rw [hs] at hstep
      exact (Option.some_injective _ hstep) ▸ hy

theorem bwr2Aux_waits (env : Nat → List DDBItem → ApiResp) :
    ∀ fuel rc b items, 2 ^ fuel * b ≤ 2000 →
      List.Chain' (· ≤ ·) (bwr2Aux env fuel rc b items).waits ∧
      ∀ w ∈ (bwr2Aux env fuel rc b items).waits, b ≤ w ∧ w ≤ 1000 := by
  intro fuel
  induction fuel with
  | zero =>
    intro rc b items hb
    simp [bwr2Aux]
  | succ f ih =>
    intro rc b items hb
    have hble : b ≤ 1000 := by
      have h2 : 2 ≤ 2 ^ (f + 1) := by
        calc 2 = 2 ^ 1 := rfl
        _ ≤ 2 ^ (f + 1) := Nat.pow_le_pow_right (by omega) (by omega)
      have h3 : 2 * b ≤ 2 ^ (f + 1) * b := Nat.mul_le_mul_right b h2
      omega
    rcases henv : env rc items with u | - | -
    · by_cases hu0 : u = []
      · subst hu0
        simp [bwr2Aux, henv]
      · by_cases hf0 : f = 0
        · subst hf0
          simp [bwr2Aux, henv, hu0]
        · have hb' : 2 ^ f * min (b * 2) 1000 ≤ 2000 := by
            calc 2 ^ f * min (b * 2) 1000 ≤ 2 ^ f * (b * 2) :=
              Nat.mul_le_mul_left _ (min_le_left _ _)
            _ = 2 ^ (f + 1) * b := by ring
            _ ≤ 2000 := hb
          obtain ⟨c1, c2⟩ := ih (rc + 1) (min (b * 2) 1000) u hb'
          have hbb : b ≤ min (b * 2) 1000 := le_min (by omega) hble
          simp only [bwr2Aux, henv, if_neg hu0, if_neg hf0]
          constructor
          · rw [List.chain'_cons']
            exact ⟨fun y hy => le_trans hbb (c2 y (List.mem_of_mem_head? hy)).1, c1⟩
          · intro w hw
            rcases List.mem_cons.mp hw with h | h
            · simp only [h]
              exact ⟨le_refl b, hble⟩
            · exact ⟨le_trans hbb (c2 w h).1, (c2 w h).2⟩
    · by_cases hf0 : f = 0
      · subst hf0
        simp [bwr2Aux, henv]
      · have hb' : 2 ^ f * min (b * 2) 2000 ≤ 2000 := by
          calc 2 ^ f * min (b * 2) 2000 ≤ 2 ^ f * (b * 2) :=
            Nat.mul_le_mul_left _ (min_le_left _ _)
          _ = 2 ^ (f + 1) * b := by ring
          _ ≤ 2000 := hb
        obtain ⟨c1, c2⟩ := ih (rc + 1) (min (b * 2) 2000) items hb'
        have hbb : b ≤ min (b * 2) 2000 := le_min (by omega) (by omega)
        simp only [bwr2Aux, henv, if_neg hf0]
        constructor
        · rw [List.chain'_cons']
          exact ⟨fun y hy => le_trans hbb (c2 y (List.mem_of_mem_head? hy)).1, c1⟩
        · intro w hw
          rcases List.mem_cons.mp hw with h | h
          · simp only [h]
            exact ⟨le_refl b, hble⟩
          · exact ⟨le_trans hbb (c2 w h).1, (c2 w h).2⟩
    · by_cases hf0 : f = 0
      · subst hf0
        simp [bwr2Aux, henv]
      · have hb' : 2 ^ f * b ≤ 2000 := by
          have h2 : 2 ^ f * b ≤ 2 ^ (f + 1) * b := by
            have : (2:Nat) ^ f ≤ 2 ^ (f + 1) := Nat.pow_le_pow_right (by omega) (by omega)
            exact Nat.mul_le_mul_right b this
          omega
        obtain ⟨c1, c2⟩ := ih (rc + 1) b items hb'
        simp only [bwr2Aux, henv, if_neg hf0]
        constructor
        · rw [List.chain'_cons']
          exact ⟨fun y hy => (c2 y (List.mem_of_mem_head? hy)).1, c1⟩
        · intro w hw
          rcases List.mem_cons.mp hw with h | h
          · simp only [h]
            exact ⟨le_refl b, hble⟩
          · exact c2 w h

theorem bwrAux_allUnprocessed (pf : String → Option PyFloat)
    (env : Nat → List DDBItem → ApiResp) (henv : ∀ i s, env i s = .ok s) :
    ∀ fuel rc items, items ≠ [] → (∀ x ∈ items, simpleItem pf x = true) →
      (bwrAux pf env fuel rc items).outcome = .retFalse ∧
      (bwrAux pf env fuel rc items).sent.length = fuel ∧
      (bwrAux pf env fuel rc items).processed = [] := by
  intro fuel
  induction fuel with
  | zero =>
    intro rc items hne hs
    simp [bwrAux]
  | succ f ih =>
    intro rc items hne hs
    have hwne : items.map convert_to_dynamodb_format ≠ [] := by
      simp [hne]
    obtain ⟨next, hcb, hmap, hsub⟩ :=
      convert_pullback pf items (items.map convert_to_dynamodb_format) hs (fun w hw => hw)
    have hnne : next ≠ [] := by
      intro h
      rw [h] at hmap
      exact hwne hmap.symm
    obtain ⟨i1, i2, i3⟩ := ih (rc + 1) next hnne (fun y hy => hs y (hsub y hy))
    have hfilter : (items.map convert_to_dynamodb_format).filter
        (fun w => decide (w ∉ items.map convert_to_dynamodb_format)) = [] := by
      rw [List.filter_eq_nil_iff]
      intro a ha
      simp [ha]
    simp only [bwrAux, henv, if_neg hwne, hcb]
    exact ⟨i1, by simp [i2], by simp [hfilter, i3]⟩

theorem bwr2Aux_allUnprocessed (env : Nat → List DDBItem → ApiResp)
    (henv : ∀ i s, env i s = .ok s) :
    ∀ fuel rc b items, items ≠ [] →
      (bwr2Aux env fuel rc b items).outcome = .retFalse ∧
      (bwr2Aux env fuel rc b items).sent.length = fuel ∧
      (bwr2Aux env fuel rc b items).processed = [] := by
  intro fuel
  induction fuel with
  | zero =>
    intro rc b items hne
    simp [bwr2Aux]
  | succ f ih =>
    intro rc b items hne
    have hfilter : items.filter (fun w => decide (w ∉ items)) = [] := by
      rw [List.filter_eq_nil_iff]
      intro a ha
      simp [ha]
    by_cases hf0 : f = 0
    · subst hf0
      simp only [bwr2Aux, henv, if_neg hne, if_pos rfl]
      exact ⟨rfl, rfl, hfilter⟩
    · obtain ⟨i1, i2, i3⟩ := ih (rc + 1) (min (b * 2) 1000) items hne
      simp only [bwr2Aux, henv, if_neg hne, if_neg hf0]
      exact ⟨i1, by simp [i2], by simp [hfilter, i3]⟩

theorem bwr2Aux_constErr (env : Nat → List DDBItem → ApiResp)
    (henv : ∀ i s, env i s = .clientErr) :
    ∀ fuel rc b items,
      (bwr2Aux env fuel rc b items).sent.length = fuel ∧
      (bwr2Aux env fuel rc b items).outcome = .retFalse := by
  intro fuel
  induction fuel with
  | zero =>
    intro rc b items
    simp [bwr2Aux]
  | succ f ih =>
    intro rc b items
    by_cases hf0 : f = 0
    · subst hf0
      simp only [bwr2Aux, henv, if_pos rfl]
      exact ⟨rfl, rfl⟩
    · obtain ⟨i1, i2⟩ := ih (rc + 1) b items
      simp only [bwr2Aux, henv, if_neg hf0]
      exact ⟨by simp [i1], i2⟩

/-- The batch slicing `[all_items[i:i+batch_size] for i in range(0, len, batch_size)]`
of `insert_bulk_data` (ddb-map-insert.py line 150), fuel-based
(`fuel ≥ l.length` suffices; Python's `range` step must be ≥ 1). -/
def chunksOfAux {α : Type} (bs : Nat) : Nat → List α → List (List α)
  | 0, _ => []
  | _, [] => []
  | fuel + 1, x :: xs =>
    (x :: xs.take (bs - 1)) :: chunksOfAux bs fuel (xs.drop (bs - 1))

/-- `chunksOf bs l` = the `bs`-sized slices of `l` (last one possibly short). -/
def chunksOf {α : Type} (bs : Nat) (l : List α) : List (List α) :=
  chunksOfAux bs l.length l

theorem chunksOfAux_length {α : Type} (bs : Nat) (hbs : 0 < bs) :
    ∀ fuel (l : List α), l.length ≤ fuel →
      (chunksOfAux bs fuel l).length = (l.length + bs - 1) / bs := by
  intro fuel
  induction fuel with
  | zero =>
    intro l hl
    have : l = [] := List.eq_nil_of_length_eq_zero (by omega)
    subst this
    simp only [chunksOfAux, List.length_nil, Nat.zero_add]
    exact (Nat.div_eq_of_lt (by omega)).symm
  | succ f ih =>
    intro l hl
    match l with
    | [] =>
      simp only [chunksOfAux, List.length_nil, Nat.zero_add]
      exact (Nat.div_eq_of_lt (by omega)).symm
    | x :: xs =>
      have hdl : (xs.drop (bs - 1)).length = xs.length - (bs - 1) := by
        simp [List.length_drop]
      have hfuel : (xs.drop (bs - 1)).length ≤ f := by
        simp only [List.length_cons] at hl
        omega
      have hrec := ih (xs.drop (bs - 1)) hfuel
      simp only [chunksOfAux, List.length_cons, hrec, hdl]
      set n := xs.length + 1 with hn
      have hxs : xs.length - (bs - 1) = n - bs := by omega
      rw [hxs]
      have hright : n + bs - 1 = (n - 1) + bs := by omega
      rw [hright, Nat.add_div_right _ hbs]
      congr 1
      by_cases hcase : bs ≤ n
      · congr 1
        omega
      · have h1 : n - bs = 0 := by omega
        rw [h1]
        rw [Nat.div_eq_of_lt (by omega : 0 + bs - 1 < bs)]
        rw [Nat.div_eq_of_lt (by omega : n - 1 < bs)]

theorem count_true_add_count_false (l : List Bool) :
    l.count true + l.count false = l.length := by
  induction l with
  | nil => rfl
  | cons b t ih =>
    cases b <;> simp [List.count_cons] <;> omega

/-- The batching and success/failure counting of
`MapBulkLoader.insert_bulk_data` (ddb-map-insert.py lines 147–175): `count`
generated items are sliced into `batch_size`-chunks, each batch's retry
result (`outcome i` for the i-th batch) bumps exactly one of the two
counters, and the function returns
`(success_count * batch_size, failure_count * batch_size)`.  Item contents
play no role in the counting, so the generated list is represented by
`List.range count`. -/
def insert_bulk_data_counts (count batch_size : Nat) (outcome : Nat → Bool) : Nat × Nat :=
  let batches := chunksOf batch_size (List.range count)
  let results := (List.range batches.length).map outcome
  (results.count true * batch_size, results.count false * batch_size)

/-- The producer loop of `parallel_insert_large_dataset` (map-insertmany.py
lines 196–205): from `start_idx`, emit `(idx, size)` work units with
`size = min batch_size (total - idx)` until `total` is reached.  Fuel-based
(`total` suffices for `batch_size ≥ 1`; Python would loop forever on
`batch_size = 0`). -/
def producerLoop (bs total : Nat) : Nat → Nat → List (Nat × Nat)
  | 0, _ => []
  | fuel + 1, idx =>
    if idx < total then
      (idx, min bs (total - idx)) :: producerLoop bs total fuel (idx + min bs (total - idx))
    else []

/-- All work units of one run. -/
def producerBatches (bs total start_idx : Nat) : List (Nat × Nat) :=
  producerLoop bs total total start_idx

/-- The success counting of `batch_consumer` (map-insertmany.py lines
213–232): each successful batch adds its `size` to `items_inserted`; a
failed batch is only logged.  `outcome i` is the retry result of the i-th
work unit. -/
def itemsInsertedTotal (batches : List (Nat × Nat)) (outcome : Nat → Bool) : Nat :=
  ((batches.enum.filter (fun p => outcome p.1)).map (fun p => p.2.2)).sum

/-- The sizes of the batches that failed (only logged, never counted, in
the source). -/
def itemsFailedTotal (batches : List (Nat × Nat)) (outcome : Nat → Bool) : Nat :=
  ((batches.enum.filter (fun p => !outcome p.1)).map (fun p => p.2.2)).sum

theorem itemsInserted_add_itemsFailed (batches : List (Nat × Nat)) (outcome : Nat → Bool) :
    itemsInsertedTotal batches outcome + itemsFailedTotal batches outcome =
      (batches.map (fun p => p.2)).sum := by
  unfold itemsInsertedTotal itemsFailedTotal
  have h : ∀ (l : List (Nat × Nat × Nat)),
      ((l.filter (fun p => outcome p.1)).map (fun p => p.2.2)).sum +
        ((l.filter (fun p => !outcome p.1)).map (fun p => p.2.2)).sum =
        (l.map (fun p => p.2.2)).sum := by
    intro l
    induction l with
    | nil => rfl
    | cons p t ih =>
      by_cases hp : outcome p.1
      · simp [List.filter_cons, hp, ih]
        omega
      · simp only [List.filter_cons, hp, Bool.not_false, Bool.false_eq_true, if_false,
          if_true, Bool.not_eq_true]
        simp [hp, List.map_cons, List.sum_cons, ← ih]
        omega
  have h2 := h batches.enum
  rw [h2]
  have h3 : batches.enum.map (fun p => p.2.2) = batches.map (fun p => p.2) := by
    calc batches.enum.map (fun p => p.2.2)
        = (batches.enum.map Prod.snd).map (fun b => b.2) := by rw [List.map_map]; rfl
    _ = batches.map (fun p => p.2) := by rw [List.enum_map_snd]
  rw [h3]

/-- The JSON text produced by `json.dump({'last_index': n}, f)`
(map-insertmany.py lines 267–268 and 275–276). -/
def jsonLastIndex (n : Nat) : String :=
  "\x7b\"last_index\": " ++ natStr n ++ "\x7d"

/-- One checkpoint write: `open(progress_file, 'w')` truncates, so the new
content replaces whatever was there (`prev`) — never appends to it. -/
def writeCheckpoint (prev : Option String) (start_idx items_inserted : Nat) :
    Option String :=
  some (jsonLastIndex (start_idx + items_inserted))

/-- The progress-file content after a run: the Reporter loop writes on each
5-second tick (observing the then-current `items_inserted`) and the
graceful-shutdown path writes once more; `tickObs` is the observed counter
value at each write, in order, and each write overwrites the file. -/
def checkpointFileAfter (start_idx : Nat) (tickObs : List Nat) : Option String :=
  tickObs.foldl (fun prev obs => writeCheckpoint prev start_idx obs) none

theorem checkpointFileAfter_snoc (start_idx : Nat) (obs : List Nat) (last : Nat) :
    checkpointFileAfter start_idx (obs ++ [last]) = some (jsonLastIndex (start_idx + last)) := by
  unfold checkpointFileAfter
  rw [List.foldl_append]
  rfl

/-- One group/version record of the secondary-index query
(ddb-map-query.py): the element id `ele` and its numeric version. -/
abbrev QItem := String × Int

/-- The streaming dedup loop of `query_max_versions_by_block`
(ddb-map-query.py lines 45–91) over the concatenated stream of query
pages: stop at the first item whose version is strictly below the
threshold; otherwise keep the first item seen for each `ele` (tracked in
`seen`), accumulating results in reverse in `acc`. -/
def scanDedupAux (thr : Int) (seen : List String) (acc : List QItem) :
    List QItem → List QItem
  | [] => acc.reverse
  | it :: rest =>
    if it.2 < thr then acc.reverse
    else if it.1 ∈ seen then scanDedupAux thr seen acc rest
    else scanDedupAux thr (it.1 :: seen) (it :: acc) rest

/-- `query_max_versions_by_block` (ddb-map-query.py): the dedup pass
started with no seen elements and no results. -/
def query_max_versions_by_block (thr : Int) (items : List QItem) : List QItem :=
  scanDedupAux thr [] [] items

/-- Reference definition, following the spec's words: "keep only the first
item per key". -/
def dedupFirstBy (seen : List String) : List QItem → List QItem
  | [] => []
  | it :: rest =>
    if it.1 ∈ seen then dedupFirstBy seen rest
    else it :: dedupFirstBy (it.1 :: seen) rest

/-- The prefix of the stream strictly before the early-termination point
(version `< thr`). -/
def keepAbove (thr : Int) (l : List QItem) : List QItem :=
  l.takeWhile (fun it => decide (thr ≤ it.2))

theorem scanDedupAux_eq (thr : Int) :
    ∀ (l : List QItem) (seen : List String) (acc : List QItem),
      scanDedupAux thr seen acc l = acc.reverse ++ dedupFirstBy seen (keepAbove thr l) := by
  intro l
  induction l with
  | nil =>
    intro seen acc
    simp [scanDedupAux, keepAbove, dedupFirstBy]
  | cons it rest ih =>
    intro seen acc
    by_cases hv : it.2 < thr
    · have hp : ¬ (thr ≤ it.2) := by omega
      simp [scanDedupAux, hv, keepAbove, List.takeWhile_cons, hp, dedupFirstBy]
    · have hp : thr ≤ it.2 := by omega
      have hkeep : keepAbove thr (it :: rest) = it :: keepAbove thr rest := by
        simp [keepAbove, List.takeWhile_cons, hp]
      by_cases hseen : it.1 ∈ seen
      · simp only [scanDedupAux, if_neg hv, if_pos hseen, hkeep, dedupFirstBy, ih]
      · simp only [scanDedupAux, if_neg hv, if_neg hseen, hkeep, dedupFirstBy, ih,
          List.reverse_cons, List.append_assoc, List.singleton_append]

theorem dedupFirstBy_nodup :
    ∀ (l : List QItem) (seen : List String),
      ((dedupFirstBy seen l).map Prod.fst).Nodup ∧
      ∀ x ∈ dedupFirstBy seen l, x.1 ∉ seen := by
  intro l
  induction l with
  | nil =>
    intro seen
    simp [dedupFirstBy]
  | cons it rest ih =>
    intro seen
    by_cases hseen : it.1 ∈ seen
    · simpa [dedupFirstBy, hseen] using ih seen
    · obtain ⟨n1, n2⟩ := ih (it.1 :: seen)
      simp only [dedupFirstBy, if_neg hseen, List.map_cons, List.nodup_cons]
      refine ⟨⟨?_, n1⟩, ?_⟩
      · intro hmem
        obtain ⟨y, hy, hyx⟩ := List.mem_map.mp hmem
        have := n2 y hy
        rw [hyx] at this
        exact this (List.mem_cons_self _ _)
      · intro x hx
        rcases List.mem_cons.mp hx with h | h
        · exact h ▸ hseen
        · have := n2 x h
          intro hxs
          exact this (List.mem_cons.mpr (Or.inr hxs))

theorem dedupFirstBy_complete :
    ∀ (l : List QItem) (seen : List String) (x : QItem), x ∈ l →
      x.1 ∈ seen ∨ ∃ y ∈ dedupFirstBy seen l, y.1 = x.1 := by
  intro l
  induction l with
  | nil =>
    intro seen x hx
    simp at hx
  | cons it rest ih =>
    intro seen x hx
    by_cases hseen : it.1 ∈ seen
    · rcases List.mem_cons.mp hx with h | h
      · exact Or.inl (h ▸ hseen)
      · simpa [dedupFirstBy, hseen] using ih seen x h
    · rcases List.mem_cons.mp hx with h | h
      · refine Or.inr ⟨it, ?_, by rw [h]⟩
        simp [dedupFirstBy, hseen]
      · rcases ih (it.1 :: seen) x h with h2 | ⟨y, hy, hyx⟩
        · rcases List.mem_cons.mp h2 with h3 | h3
          · exact Or.inr ⟨it, by simp [dedupFirstBy, hseen], h3.symm⟩
          · exact Or.inl h3
        · exact Or.inr ⟨y, by simp [dedupFirstBy, hseen, hy], hyx⟩

theorem dedupFirstBy_first :
    ∀ (l : List QItem) (seen : List String) (y : QItem), y ∈ dedupFirstBy seen l →
      y.1 ∉ seen ∧ List.find? (fun x => x.1 == y.1) l = some y := by
  intro l
  induction l with
  | nil =>
    intro seen y hy
    simp [dedupFirstBy] at hy
  | cons it rest ih =>
    intro seen y hy
    by_cases hseen : it.1 ∈ seen
    · rw [dedupFirstBy, if_pos hseen] at hy
      obtain ⟨hns, hfind⟩ := ih seen y hy
      refine ⟨hns, ?_⟩
      rw [List.find?_cons]
      have hne : (it.1 == y.1) = false := by
        rw [beq_eq_false_iff_ne]
        intro h
        exact hns (h ▸ hseen)
      rw [hne]
      exact hfind
    · rw [dedupFirstBy, if_neg hseen] at hy
      rcases List.mem_cons.mp hy with h | h
      · subst h
        refine ⟨hseen, ?_⟩
        rw [List.find?_cons]
        simp
      · obtain ⟨hns, hfind⟩ := ih (it.1 :: seen) y h
        have hne1 : y.1 ≠ it.1 := fun hh => hns (List.mem_cons.mpr (Or.inl hh))
        have hns2 : y.1 ∉ seen := fun hh => hns (List.mem_cons.mpr (Or.inr hh))
        refine ⟨hns2, ?_⟩
        rw [List.find?_cons]
        have hne : (it.1 == y.1) = false := by
          rw [beq_eq_false_iff_ne]
          exact fun hh => hne1 hh.symm
        rw [hne]
        exact hfind

theorem keepAbove_idem (thr : Int) (l : List QItem) :
    keepAbove thr (keepAbove thr l) = keepAbove thr l := by
  induction l with
  | nil => rfl
  | cons it rest ih =>
    by_cases hp : thr ≤ it.2
    · simp only [keepAbove, List.takeWhile_cons, decide_eq_true hp] at ih ⊢
      simpa [keepAbove, List.takeWhile_cons, decide_eq_true hp] using ih
    · simp [keepAbove, List.takeWhile_cons, hp]

theorem bwrAux_clientErr_end (pf : String → Option PyFloat)
    (env : Nat → List DDBItem → ApiResp) :
    ∀ fuel rc items j,
      (bwrAux pf env fuel rc items).resps.get? j = some .clientErr →
      (bwrAux pf env fuel rc items).sent.length = j + 1 ∧
      (bwrAux pf env fuel rc items).outcome = .retFalse ∧
      (bwrAux pf env fuel rc items).waits.length = j := by
  intro fuel
  induction fuel with
  | zero =>
    intro rc items j hj
    simp [bwrAux] at hj
  | succ f ih =>
    intro rc items j hj
    rcases henv : env rc (items.map convert_to_dynamodb_format) with u | - | -
    · by_cases hu0 : u = []
      · subst hu0
        simp only [bwrAux, henv] at hj ⊢
        match j with
        | 0 => simp at hj
        | j + 1 => simp at hj
      · rcases hcb : convert_from_batch pf u with - | next
        · simp only [bwrAux, henv, if_neg hu0, hcb] at hj ⊢
          match j with
          | 0 => simp at hj
          | j + 1 => simp at hj
        · simp only [bwrAux, henv, if_neg hu0, hcb] at hj ⊢
          match j with
          | 0 => simp at hj
          | j + 1 =>
            simp only [List.get?_cons_succ] at hj
            obtain ⟨e1, e2, e3⟩ := ih (rc + 1) next j hj
            exact ⟨by simp [e1], e2, by simp [e3]⟩
    · simp only [bwrAux, henv] at hj ⊢
      match j with
      | 0 => simp at hj
      | j + 1 =>
        simp only [List.get?_cons_succ] at hj
        obtain ⟨e1, e2, e3⟩ := ih (rc + 1) items j hj
        exact ⟨by simp [e1], e2, by simp [e3]⟩
    · simp only [bwrAux, henv] at hj ⊢
      match j with
      | 0 => simp
      | j + 1 => simp at hj

theorem bwrAux_waits_formula (pf : String → Option PyFloat)
    (env : Nat → List DDBItem → ApiResp) :
    ∀ fuel rc items n w,
      (bwrAux pf env fuel rc items).waits.get? n = some w → w = 2 ^ (rc + n) * 100 := by
  intro fuel
  induction fuel with
  | zero =>
    intro rc items n w hw
    simp [bwrAux] at hw
  | succ f ih =>
    intro rc items n w hw
    rcases henv : env rc (items.map convert_to_dynamodb_format) with u | - | -
    · by_cases hu0 : u = []
      · subst hu0
        simp only [bwrAux, henv] at hw
        simp at hw
      · rcases hcb : convert_from_batch pf u with - | next
        · simp only [bwrAux, henv, if_neg hu0, hcb] at hw
          simp at hw
        · simp only [bwrAux, henv, if_neg hu0, hcb] at hw
          match n with
          | 0 =>
            simp only [List.get?_cons_zero, Option.some_inj] at hw
            rw [Nat.add_zero]
            omega
          | n + 1 =>
            simp only [List.get?_cons_succ] at hw
            have := ih (rc + 1) next n w hw
            rw [this]
            ring_nf
    · simp only [bwrAux, henv] at hw
      match n with
      | 0 =>
        simp only [List.get?_cons_zero, Option.some_inj] at hw
        rw [Nat.add_zero]
        omega
      | n + 1 =>
        simp only [List.get?_cons_succ] at hw
        have := ih (rc + 1) items n w hw
        rw [this]
        ring_nf
    · simp only [bwrAux, henv] at hw
      simp at hw

/-- C1: For every batch, the batch-write-with-retry operation
(`batch_write_with_retries` in ddb-map-insert.py, `batch_write_with_retry`
in map-insertmany.py) returns true if and only if every record of the
original batch was eventually reported accepted by the external batch API
(empty unprocessed set), and returns false otherwise; no record is
silently dropped — every record is either reported accepted or still in
the loop's final unaccepted remainder. -/
theorem C1_retry_true_iff_all_accepted
    (pf : String → Option PyFloat) (env env2 : Nat → List DDBItem → ApiResp)
    (h1 : envReportsSubset env) (h2 : envReportsSubset env2)
    (items : List PyItem) (hne : items ≠ [])
    (hs : ∀ x ∈ items, simpleItem pf x = true)
    (items2 : List DDBItem) (hne2 : items2 ≠ []) :
    ((batch_write_with_retries pf env items).outcome = .retTrue ↔
      ∀ x ∈ items, convert_to_dynamodb_format x ∈
        (batch_write_with_retries pf env items).processed) ∧
    ((batch_write_with_retries pf env items).outcome ≠ .crash) ∧
    (∀ x ∈ items, convert_to_dynamodb_format x ∈
        (batch_write_with_retries pf env items).processed ∨
      x ∈ (batch_write_with_retries pf env items).remaining) ∧
    ((batch_write_with_retry env2 items2).outcome = .retTrue ↔
      ∀ x ∈ items2, x ∈ (batch_write_with_retry env2 items2).processed) ∧
    (∀ x ∈ items2, x ∈ (batch_write_with_retry env2 items2).processed ∨
      x ∈ (batch_write_with_retry env2 items2).remaining) := by
  obtain ⟨i1, i2, i3, i4, i5, i6, i7⟩ := bwrAux_invariant pf env h1 5 0 items hs
  obtain ⟨j1, j2, j3, j4, j5, j6⟩ := bwr2Aux_invariant env2 h2 5 0 50 items2
  refine ⟨⟨i4, ?_⟩, i1, i7, ⟨j2, ?_⟩, j5⟩
  · intro hall
    rcases ho : (batch_write_with_retries pf env items).outcome with - | - | -
    · rfl
    · obtain ⟨x, hx⟩ :=
        List.exists_mem_of_ne_nil _ (i5 hne ho)
      exact absurd (hall x (i2 x hx)) (i6 x hx)
    · exact absurd ho i1
  · intro hall
    rcases ho : (batch_write_with_retry env2 items2).outcome with - | - | -
    · rfl
    · obtain ⟨x, hx⟩ :=
        List.exists_mem_of_ne_nil _ (j3 hne2 ho)
      exact absurd (hall x (j1 x hx)) (j4 x hx)
    · exact absurd ho j6

/-- The `float()` builtin is never consulted on the witness items. -/
def pfNone : String → Option PyFloat := fun _ => none

/-- An environment that accepts every batch at once. -/
def envAllOk : Nat → List DDBItem → ApiResp := fun _ _ => .ok []

theorem envAllOk_subset : envReportsSubset envAllOk := by
  intro i s u h w hw
  cases h
  simp at hw

/-- A sample dict item of the kind `generate_random_map_element` produces. -/
def itemA : PyItem := [("ele", .pstr "element_0_aaaaaaaa"), ("timestamp", .pint 5)]

/-- A sample wire item of the kind `generate_batch_data` produces. -/
def witem : DDBItem := [("bte", .dS "branch0#t00000#rd0000000")]

/-- C1 witness: the theorem applied at a concrete accepting run. -/
theorem C1_retry_true_iff_all_accepted_witness :
    (([itemA] : List PyItem) ≠ [] ∧ (∀ x ∈ [itemA], simpleItem pfNone x = true) ∧
      ([witem] : List DDBItem) ≠ []) ∧
    ((batch_write_with_retries pfNone envAllOk [itemA]).outcome = .retTrue ↔
      ∀ x ∈ [itemA], convert_to_dynamodb_format x ∈
        (batch_write_with_retries pfNone envAllOk [itemA]).processed) ∧
    ((batch_write_with_retries pfNone envAllOk [itemA]).outcome ≠ .crash) ∧
    (∀ x ∈ [itemA], convert_to_dynamodb_format x ∈
        (batch_write_with_retries pfNone envAllOk [itemA]).processed ∨
      x ∈ (batch_write_with_retries pfNone envAllOk [itemA]).remaining) ∧
    ((batch_write_with_retry envAllOk [witem]).outcome = .retTrue ↔
      ∀ x ∈ [witem], x ∈ (batch_write_with_retry envAllOk [witem]).processed) ∧
    (∀ x ∈ [witem], x ∈ (batch_write_with_retry envAllOk [witem]).processed ∨
      x ∈ (batch_write_with_retry envAllOk [witem]).remaining) :=
  ⟨⟨by decide, by decide, by decide⟩,
    C1_retry_true_iff_all_accepted pfNone envAllOk envAllOk envAllOk_subset envAllOk_subset
      [itemA] (by decide) (by decide) [witem] (by decide)⟩

/-- Two different random draws for the same index. -/
def randA : RandDraw := ⟨"aaaaaaaa", 0, 0, ⟨"1.5"⟩, 0⟩

/-- A second draw differing only in the uuid suffix. -/
def randB : RandDraw := ⟨"bbbbbbbb", 0, 0, ⟨"1.5"⟩, 0⟩

/-- C2 counterexample: `generate_random_map_element` is not deterministic
in its argument `index` — two calls with the same index (and the same wall
clock) differ whenever the `uuid.uuid4().hex[:8]` draw differs, so
retries/resumption do not reproduce identical keys. -/
theorem C2_counterexample_uuid :
    generate_random_map_element 0 0 randA ≠ generate_random_map_element 0 0 randB := by
  decide

/-- C2 (amended): `generate_batch_data` (map-insertmany.py) is
deterministic in `(start_idx, batch_size, branches, tiles, element_types)`
for every attribute except the time-dependent `tsver`: two calls with
identical arguments, at any two call times, produce identical key-forming
fields (`bte`, `branch`, `tile`, `element`, `element_value`,
`element_md5`), so retries and resumption reproduce identical keys.
`generate_random_map_element` (ddb-map-insert.py) is, by design, not
deterministic (uuid and `random` draws). -/
theorem C2_amended_generate_batch_keys_deterministic
    (md5 : String → String) (t1 t2 : Int) (start_idx batch_size : Nat)
    (branches tiles element_types : List String) :
    (generate_batch_data md5 t1 start_idx batch_size branches tiles element_types).map
        dropTsver =
      (generate_batch_data md5 t2 start_idx batch_size branches tiles element_types).map
        dropTsver := by
  unfold generate_batch_data
  rw [List.map_map, List.map_map]
  have h : dropTsver ∘
        (fun k => mkMapItem md5 t1 branches tiles element_types (start_idx + k)) =
      dropTsver ∘
        (fun k => mkMapItem md5 t2 branches tiles element_types (start_idx + k)) := by
    funext k
    rfl
  rw [h]

/-- C3: in both retry loops, once at least one call has completed with a
response, every later call sends exactly the unprocessed subset the
external API reported on the most recent completed call before it (so
never the full original batch once something was accepted), and a wire
item once reported processed is never re-sent. -/
theorem C3_retry_sends_only_last_unprocessed
    (pf : String → Option PyFloat) (env env2 : Nat → List DDBItem → ApiResp)
    (h1 : envReportsSubset env) (h2 : envReportsSubset env2)
    (items : List PyItem) (hs : ∀ x ∈ items, simpleItem pf x = true)
    (items2 : List DDBItem) :
    (∀ i j u, (batch_write_with_retries pf env items).resps.get? i = some (.ok u) →
      i < j → j < (batch_write_with_retries pf env items).sent.length →
      (∀ m u2, i < m → m < j →
        (batch_write_with_retries pf env items).resps.get? m ≠ some (.ok u2)) →
      (batch_write_with_retries pf env items).sent.get? j = some u) ∧
    (∀ i j s x, i < j →
      (batch_write_with_retries pf env items).sent.get? j = some s →
      x ∈ processedAt (batch_write_with_retries pf env items) i → x ∉ s) ∧
    (∀ i j u, (batch_write_with_retry env2 items2).resps.get? i = some (.ok u) →
      i < j → j < (batch_write_with_retry env2 items2).sent.length →
      (∀ m u2, i < m → m < j →
        (batch_write_with_retry env2 items2).resps.get? m ≠ some (.ok u2)) →
      (batch_write_with_retry env2 items2).sent.get? j = some u) ∧
    (∀ i j s x, i < j →
      (batch_write_with_retry env2 items2).sent.get? j = some s →
      x ∈ processedAt (batch_write_with_retry env2 items2) i → x ∉ s) := by
  simp only [batch_write_with_retries, batch_write_with_retry]
  obtain ⟨t1, t2, t3, t4, t5, t6, t7⟩ := bwrAux_trace pf env h1 5 0 items hs
  obtain ⟨s1, s2, s3, s4, s5⟩ := bwr2Aux_trace env2 5 0 50 items2
  have tpass : ∀ j, ((bwrAux pf env 5 0 items).resps.get? j =
        some .throttle ∨
      (bwrAux pf env 5 0 items).resps.get? j = some .clientErr) →
      j + 1 < (bwrAux pf env 5 0 items).sent.length →
      (bwrAux pf env 5 0 items).sent.get? (j + 1) =
        (bwrAux pf env 5 0 items).sent.get? j := by
    intro j hj hlt
    rcases hj with hj | hj
    · exact t5 j hj hlt
    · obtain ⟨e1, -, -⟩ := t6 j hj
      omega
  have tok : ∀ j u s, (bwrAux pf env 5 0 items).resps.get? j =
        some (.ok u) →
      (bwrAux pf env 5 0 items).sent.get? j = some s →
      ∀ y ∈ u, y ∈ s := by
    intro j u s hrj hsj y hy
    have h3 := t3 j s hsj
    rw [h3] at hrj
    exact h1 (0 + j) s u (Option.some_injective _ hrj) y hy
  have tok2 : ∀ j u s, (bwr2Aux env2 5 0 50 items2).resps.get? j =
        some (.ok u) →
      (bwr2Aux env2 5 0 50 items2).sent.get? j = some s →
      ∀ y ∈ u, y ∈ s := by
    intro j u s hrj hsj y hy
    have h3 := s3 j s hsj
    rw [h3] at hrj
    exact h2 (0 + j) s u (Option.some_injective _ hrj) y hy
  have hnoresend : ∀ (sent : List (List DDBItem)) (resps : List ApiResp),
      resps.length = sent.length →
      (∀ j u, resps.get? j = some (.ok u) → j + 1 < sent.length →
        sent.get? (j + 1) = some u) →
      (∀ j, (resps.get? j = some .throttle ∨ resps.get? j = some .clientErr) →
        j + 1 < sent.length → sent.get? (j + 1) = sent.get? j) →
      (∀ j u s, resps.get? j = some (.ok u) → sent.get? j = some s →
        ∀ y ∈ u, y ∈ s) →
      ∀ (i j : Nat) (s : List DDBItem) (x : DDBItem), i < j → sent.get? j = some s →
        x ∈ (match resps.get? i, sent.get? i with
          | some (.ok u), some sI => sI.filter (fun w => decide (w ∉ u))
          | _, _ => ([] : List DDBItem)) → x ∉ s := by
    intro sent resps ht1 ht4 htp htok i j s x hij hsj hx
    rcases hri : resps.get? i with - | a
    · rw [hri] at hx
      simp at hx
    · rcases hsi : sent.get? i with - | sI
      · rw [hri, hsi] at hx
        rcases a with u | - | - <;> simp at hx
      · rw [hri, hsi] at hx
        rcases a with u | - | -
        · simp only [List.mem_filter, decide_eq_true_iff] at hx
          intro hxs
          exact hx.2 (trace_tail_subset sent resps ht1 ht4 htp htok i u hri j s hij hsj x hxs)
        · simp at hx
        · simp at hx
  refine ⟨?_, ?_, ?_, ?_⟩
  · intro i j u hresp hij hjlen hno
    exact trace_latest_report _ _ t1 t4 tpass i u hresp j hij hjlen hno
  · intro i j s x hij hsj hx
    exact hnoresend _ _ t1 t4 tpass tok i j s x hij hsj hx
  · intro i j u hresp hij hjlen hno
    exact trace_latest_report _ _ s1 s4 s5 i u hresp j hij hjlen hno
  · intro i j s x hij hsj hx
    exact hnoresend _ _ s1 s4 s5 tok2 i j s x hij hsj hx

/-- An environment whose first response reports the whole request
unprocessed and which accepts everything afterwards. -/
def envFirstUnproc : Nat → List DDBItem → ApiResp :=
  fun i s => if i = 0 then .ok s else .ok []

theorem envFirstUnproc_subset : envReportsSubset envFirstUnproc := by
  intro i s u h w hw
  unfold envFirstUnproc at h
  by_cases hi : i = 0
  · rw [if_pos hi] at h
    cases h
    exact hw
  · rw [if_neg hi] at h
    cases h
    simp at hw

/-- C3 witness: after attempt 0 reports the whole wire batch unprocessed,
attempt 1 sends exactly that reported subset. -/
theorem C3_retry_sends_only_last_unprocessed_witness :
    (∀ x ∈ [itemA], simpleItem pfNone x = true) ∧
    (batch_write_with_retries pfNone envFirstUnproc [itemA]).resps.get? 0 =
      some (.ok [convert_to_dynamodb_format itemA]) ∧
    (batch_write_with_retries pfNone envFirstUnproc [itemA]).sent.get? 1 =
      some [convert_to_dynamodb_format itemA] := by
  refine ⟨by decide, by decide, ?_⟩
  exact (C3_retry_sends_only_last_unprocessed pfNone envFirstUnproc envFirstUnproc
      envFirstUnproc_subset envFirstUnproc_subset [itemA] (by decide) [witem]).1
    0 1 [convert_to_dynamodb_format itemA] (by decide) (by decide) (by decide)
    (fun m u2 hm1 hm2 => by omega)

/-- An environment every call of which raises a non-retryable client error
(e.g. a malformed request or auth failure). -/
def envErr : Nat → List DDBItem → ApiResp := fun _ _ => .clientErr

/-- C4 counterexample: under an always-non-retryable-error store,
`batch_write_with_retry` (map-insertmany.py) makes 5 external calls and
sleeps 4 times before giving up — it does **not** abandon the batch
immediately, and it does consume the whole retry budget. -/
theorem C4_counterexample_map_insertmany_retries_nonretryable :
    (batch_write_with_retry envErr [witem]).sent.length = 5 ∧
    (batch_write_with_retry envErr [witem]).sent.length ≠ 1 ∧
    (batch_write_with_retry envErr [witem]).waits = [50, 50, 50, 50] ∧
    (batch_write_with_retry envErr [witem]).outcome = .retFalse := by
  decide

/-- C4 (amended): `batch_write_with_retries` (ddb-map-insert.py) abandons a
batch on the first non-retryable client error — the failing call is the
run's last, the loop returns false, and no backoff sleep follows it.
`batch_write_with_retry` (map-insertmany.py) instead counts such an error
against the retry budget, sleeps, and retries: when every call fails
non-retryably it makes exactly `max_retries` (5) calls before returning
false. -/
theorem C4_amended_nonretryable_error_handling
    (pf : String → Option PyFloat) (env env2 : Nat → List DDBItem → ApiResp)
    (items : List PyItem) (items2 : List DDBItem) (j : Nat)
    (hj : (batch_write_with_retries pf env items).resps.get? j = some .clientErr)
    (herr2 : ∀ i s, env2 i s = .clientErr) :
    (batch_write_with_retries pf env items).sent.length = j + 1 ∧
    (batch_write_with_retries pf env items).outcome = .retFalse ∧
    (batch_write_with_retries pf env items).waits.length = j ∧
    (batch_write_with_retry env2 items2).sent.length = 5 ∧
    (batch_write_with_retry env2 items2).outcome = .retFalse := by
  obtain ⟨e1, e2, e3⟩ := bwrAux_clientErr_end pf env 5 0 items j hj
  obtain ⟨c1, c2⟩ := bwr2Aux_constErr env2 herr2 5 0 50 items2
  exact ⟨e1, e2, e3, c1, c2⟩

/-- C4 amended witness: a store failing non-retryably on the first call. -/
theorem C4_amended_nonretryable_error_handling_witness :
    (batch_write_with_retries pfNone envErr [itemA]).resps.get? 0 =
      some .clientErr ∧
    (batch_write_with_retries pfNone envErr [itemA]).sent.length = 0 + 1 ∧
    (batch_write_with_retries pfNone envErr [itemA]).outcome = .retFalse ∧
    (batch_write_with_retries pfNone envErr [itemA]).waits.length = 0 ∧
    (batch_write_with_retry envErr [witem]).sent.length = 5 ∧
    (batch_write_with_retry envErr [witem]).outcome = .retFalse := by
  refine ⟨by decide, ?_⟩
  have h := C4_amended_nonretryable_error_handling pfNone envErr envErr [itemA] [witem] 0
    (by decide) (fun i s => rfl)
  exact ⟨h.1, h.2.1, h.2.2.1, h.2.2.2.1, h.2.2.2.2⟩

/-- C5 counterexample: in `batch_write_with_retry` (map-insertmany.py), the
non-retryable-error path sleeps without doubling `backoff_time`, so the
delay before attempt 2 of an always-erroring run is 50 ms — not
`min(base_delay * 2^1, delay_cap)` for the code's base delay of 50 ms and
either of its caps (1000 ms / 2000 ms). -/
theorem C5_counterexample_backoff_not_doubling :
    (batch_write_with_retry envErr [witem]).waits.get? 1 = some 50 ∧
    min (50 * 2 ^ 1) 1000 ≠ 50 ∧
    min (50 * 2 ^ 1) 2000 ≠ 50 := by
  decide

/-- C5 (amended): in `batch_write_with_retries` (ddb-map-insert.py) the
n-th backoff delay is exactly `2^n * 100` ms (so monotonically increasing
and, with at most 5 sleeps, at most 1600 ms — there is no explicit cap);
in `batch_write_with_retry` (map-insertmany.py) the delays are
monotonically non-decreasing and never exceed 1000 ms (hence never the
configured caps of 1000/2000 ms), but do not follow `min(50 * 2^n, cap)`
in error paths. -/
theorem C5_amended_backoff_monotone_bounded
    (pf : String → Option PyFloat) (env env2 : Nat → List DDBItem → ApiResp)
    (items : List PyItem) (items2 : List DDBItem) (n w : Nat)
    (hw : (batch_write_with_retries pf env items).waits.get? n = some w) :
    w = 2 ^ n * 100 ∧
    List.Chain' (· ≤ ·) (batch_write_with_retry env2 items2).waits ∧
    (∀ w2 ∈ (batch_write_with_retry env2 items2).waits, w2 ≤ 1000) := by
  have h1 := bwrAux_waits_formula pf env 5 0 items n w hw
  obtain ⟨c1, c2⟩ := bwr2Aux_waits env2 5 0 50 items2 (by norm_num)
  exact ⟨by simpa using h1, c1, fun w2 hw2 => (c2 w2 hw2).2⟩

/-- An environment that throttles every call. -/
def envThrottle : Nat → List DDBItem → ApiResp := fun _ _ => .throttle

/-- C5 amended witness: the first ddb-map-insert backoff of an
all-throttled run is 100 ms = 2^0 * 100. -/
theorem C5_amended_backoff_monotone_bounded_witness :
    (batch_write_with_retries pfNone envThrottle [itemA]).waits.get? 0 =
      some 100 ∧
    (100 = 2 ^ 0 * 100 ∧
      List.Chain' (· ≤ ·) (batch_write_with_retry envErr [witem]).waits ∧
      (∀ w2 ∈ (batch_write_with_retry envErr [witem]).waits, w2 ≤ 1000)) :=
  ⟨by decide,
    C5_amended_backoff_monotone_bounded pfNone envThrottle envErr [itemA] [witem] 0 100
      (by decide)⟩

/-- C6 counterexample: `insert_bulk_data` (ddb-map-insert.py) reports item
counts as `batches * batch_size`; with 10 items and batch size 25 a fully
successful run returns `(25, 0)`, and `25 + 0 ≠ 10` — the returned
"succeeded + failed" does not equal the number of submitted records. -/
theorem C6_counterexample_partial_batch_overcount :
    insert_bulk_data_counts 10 25 (fun _ => true) = (25, 0) ∧ 25 + 0 ≠ 10 := by
  decide

/-- C6 (amended): every batch is counted exactly once —
`success_count + failure_count` equals the number of batches, so
`insert_bulk_data`'s returned pair sums to `(number of batches) * batch_size`
= `⌈count / batch_size⌉ * batch_size`, which equals the number of submitted
records exactly when `batch_size` divides `count` (the final partial batch
is otherwise over-counted).  In map-insertmany.py, `items_inserted` counts
exactly the items of successful batches; failed batches' items are only
logged, and together they account for every submitted item. -/
theorem C6_amended_batch_level_accounting
    (count bs : Nat) (outcome outcome2 : Nat → Bool)
    (batches : List (Nat × Nat)) (hbs : 0 < bs) :
    (insert_bulk_data_counts count bs outcome).1 +
        (insert_bulk_data_counts count bs outcome).2 =
      (chunksOf bs (List.range count)).length * bs ∧
    (chunksOf bs (List.range count)).length = (count + bs - 1) / bs ∧
    (bs ∣ count →
      (insert_bulk_data_counts count bs outcome).1 +
        (insert_bulk_data_counts count bs outcome).2 = count) ∧
    itemsInsertedTotal batches outcome2 + itemsFailedTotal batches outcome2 =
      (batches.map (fun p => p.2)).sum := by
  have hlen : (chunksOf bs (List.range count)).length = (count + bs - 1) / bs := by
    unfold chunksOf
    rw [chunksOfAux_length bs hbs _ _ (le_refl _)]
    simp
  have hpart1 : (insert_bulk_data_counts count bs outcome).1 +
      (insert_bulk_data_counts count bs outcome).2 =
      (chunksOf bs (List.range count)).length * bs := by
    unfold insert_bulk_data_counts
    have hct := count_true_add_count_false
      ((List.range (chunksOf bs (List.range count)).length).map outcome)
    simp only [List.length_map, List.length_range] at hct
    simp only []
    rw [← Nat.add_mul, hct]
  refine ⟨hpart1, hlen, ?_, itemsInserted_add_itemsFailed batches outcome2⟩
  intro hdvd
  obtain ⟨q, hq⟩ := hdvd
  rw [hpart1, hlen, hq]
  have h1 : bs * q + bs - 1 = bs * q + (bs - 1) := by omega
  rw [h1, Nat.mul_add_div hbs, Nat.div_eq_of_lt (by omega : bs - 1 < bs)]
  ring

/-- C6 amended witness: 1000 items in batches of 25, all succeeding. -/
theorem C6_amended_batch_level_accounting_witness :
    0 < 25 ∧
    ((insert_bulk_data_counts 1000 25 (fun _ => true)).1 +
        (insert_bulk_data_counts 1000 25 (fun _ => true)).2 =
      (chunksOf 25 (List.range 1000)).length * 25 ∧
    (chunksOf 25 (List.range 1000)).length = (1000 + 25 - 1) / 25 ∧
    (25 ∣ 1000 →
      (insert_bulk_data_counts 1000 25 (fun _ => true)).1 +
        (insert_bulk_data_counts 1000 25 (fun _ => true)).2 = 1000) ∧
    itemsInsertedTotal [(0, 25), (25, 25)] (fun _ => true) +
        itemsFailedTotal [(0, 25), (25, 25)] (fun _ => true) =
      ([(0, 25), (25, 25)].map (fun p => p.2)).sum) :=
  ⟨by decide,
    C6_amended_batch_level_accounting 1000 25 (fun _ => true) (fun _ => true)
      [(0, 25), (25, 25)] (by decide)⟩

/-- C7: against a store that reports every submitted item unprocessed on
every attempt, both retry loops make exactly `max_retries` (5) external
calls, return false, and never have any of the batch's items reported
accepted (so the caller counts the whole batch as failed). -/
theorem C7_all_unprocessed_exhausts_budget
    (pf : String → Option PyFloat) (env env2 : Nat → List DDBItem → ApiResp)
    (henv : ∀ i s, env i s = .ok s) (henv2 : ∀ i s, env2 i s = .ok s)
    (items : List PyItem) (items2 : List DDBItem) (hne : items ≠ [])
    (hs : ∀ x ∈ items, simpleItem pf x = true) (hne2 : items2 ≠ []) :
    (batch_write_with_retries pf env items).sent.length = 5 ∧
    (batch_write_with_retries pf env items).outcome = .retFalse ∧
    (batch_write_with_retries pf env items).processed = [] ∧
    (batch_write_with_retry env2 items2).sent.length = 5 ∧
    (batch_write_with_retry env2 items2).outcome = .retFalse ∧
    (batch_write_with_retry env2 items2).processed = [] := by
  obtain ⟨a1, a2, a3⟩ := bwrAux_allUnprocessed pf env henv 5 0 items hne hs
  obtain ⟨b1, b2, b3⟩ := bwr2Aux_allUnprocessed env2 henv2 5 0 50 items2 hne2
  exact ⟨a2, a1, a3, b2, b1, b3⟩

/-- An environment that reports the entire request unprocessed, always. -/
def envAllUnproc : Nat → List DDBItem → ApiResp := fun _ s => .ok s

/-- C7 witness: the theorem applied to a singleton batch. -/
theorem C7_all_unprocessed_exhausts_budget_witness :
    (([itemA] : List PyItem) ≠ [] ∧ (∀ x ∈ [itemA], simpleItem pfNone x = true) ∧
      ([witem] : List DDBItem) ≠ []) ∧
    ((batch_write_with_retries pfNone envAllUnproc [itemA]).sent.length = 5 ∧
    (batch_write_with_retries pfNone envAllUnproc [itemA]).outcome = .retFalse ∧
    (batch_write_with_retries pfNone envAllUnproc [itemA]).processed = [] ∧
    (batch_write_with_retry envAllUnproc [witem]).sent.length = 5 ∧
    (batch_write_with_retry envAllUnproc [witem]).outcome = .retFalse ∧
    (batch_write_with_retry envAllUnproc [witem]).processed = []) :=
  ⟨⟨by decide, by decide, by decide⟩,
    C7_all_unprocessed_exhausts_budget pfNone envAllUnproc envAllUnproc
      (fun i s => rfl) (fun i s => rfl) [itemA] [witem] (by decide) (by decide) (by decide)⟩

/-- C8: the checkpoint file is a single JSON object
`{"last_index": <integer>}` whose content is fully replaced (never
appended) on each Reporter tick and on the graceful-shutdown write, and
after a clean run of 1,000 items with batch size 25 — all 40 producer
batches succeeding and the final write observing the completed counter —
the file contains `last_index = 1000`. -/
theorem C8_checkpoint_format_and_final_value :
    (∀ (prev1 prev2 : Option String) (start n : Nat),
      writeCheckpoint prev1 start n = writeCheckpoint prev2 start n) ∧
    (∀ obs : List Nat,
      checkpointFileAfter 0
          (obs ++ [itemsInsertedTotal (producerBatches 25 1000 0) (fun _ => true)]) =
        some (jsonLastIndex 1000)) ∧
    jsonLastIndex 1000 = "\x7b\"last_index\": 1000\x7d" := by
  refine ⟨fun _ _ _ _ => rfl, ?_, by decide⟩
  intro obs
  rw [checkpointFileAfter_snoc]
  have h : itemsInsertedTotal (producerBatches 25 1000 0) (fun _ => true) = 1000 := by
    decide
  rw [h]

/-- C9: on a version-descending stream of group/version items, the
streaming dedup pass of `query_max_versions_by_block` (ddb-map-query.py)
returns exactly one record per group key — the first one seen — and stops
at the first item whose version is strictly below the threshold: its
result is unchanged if the stream is truncated there, its keys are
duplicate-free, every key occurring before the cutoff is represented, and
each returned record is the first record of its key before the cutoff. -/
theorem C9_dedup_first_per_key_early_stop (thr : Int) (items : List QItem)
    (hdesc : items.Pairwise (fun a b => b.2 ≤ a.2)) :
    query_max_versions_by_block thr items =
      query_max_versions_by_block thr (keepAbove thr items) ∧
    ((query_max_versions_by_block thr items).map Prod.fst).Nodup ∧
    (∀ x ∈ keepAbove thr items,
      ∃ y ∈ query_max_versions_by_block thr items, y.1 = x.1) ∧
    (∀ y ∈ query_max_versions_by_block thr items,
      List.find? (fun x => x.1 == y.1) (keepAbove thr items) = some y) := by
  have hq : query_max_versions_by_block thr items =
      dedupFirstBy [] (keepAbove thr items) := by
    unfold query_max_versions_by_block
    rw [scanDedupAux_eq]
    rfl
  have hq2 : query_max_versions_by_block thr (keepAbove thr items) =
      dedupFirstBy [] (keepAbove thr items) := by
    unfold query_max_versions_by_block
    rw [scanDedupAux_eq, keepAbove_idem]
    rfl
  refine ⟨by rw [hq, hq2], ?_, ?_, ?_⟩
  · rw [hq]
    exact (dedupFirstBy_nodup (keepAbove thr items) []).1
  · intro x hx
    rcases dedupFirstBy_complete (keepAbove thr items) [] x hx with h | ⟨y, hy, hyx⟩
    · simp at h
    · exact ⟨y, by rw [hq]; exact hy, hyx⟩
  · intro y hy
    rw [hq] at hy
    exact (dedupFirstBy_first (keepAbove thr items) [] y hy).2

/-- C9 witness: the theorem applied to a concrete descending stream with a
duplicate key and a below-threshold tail. -/
theorem C9_dedup_first_per_key_early_stop_witness :
    ([("a", (5 : Int)), ("b", 5), ("a", 4), ("c", 2)] : List QItem).Pairwise
      (fun a b => b.2 ≤ a.2) ∧
    query_max_versions_by_block 3 [("a", (5 : Int)), ("b", 5), ("a", 4), ("c", 2)] =
      query_max_versions_by_block 3
        (keepAbove 3 [("a", (5 : Int)), ("b", 5), ("a", 4), ("c", 2)]) :=
  ⟨by decide,
    (C9_dedup_first_per_key_early_stop 3 [("a", 5), ("b", 5), ("a", 4), ("c", 2)]
      (by decide)).1⟩

/-- C10: for every flat dict whose values are all simple — strings, ints,
or floats (and not booleans, which Python's `isinstance(_, int)` routes
into the `N` branch) — converting to DynamoDB wire format and back is the
identity; a value of any type without a conversion branch is silently
dropped by the forward conversion. -/
theorem C10_convert_round_trip_and_drop
    (pf : String → Option PyFloat) (item : PyItem)
    (hs : simpleItem pf item = true) :
    convert_from_dynamodb_format pf (convert_to_dynamodb_format item) = some item ∧
    (∀ (k : String) (item2 : PyItem),
      convert_to_dynamodb_format ((k, .pother) :: item2) =
        convert_to_dynamodb_format item2) := by
  exact ⟨convert_round_trip pf item hs, fun k item2 => rfl⟩

/-- A `float()` model accepting exactly the repr string used in the
witness item. -/
def pfOne : String → Option PyFloat :=
  fun s => if s = "1.5" then some ⟨"1.5"⟩ else none

/-- A dict with a string, a negative int, and a float value. -/
def itemF : PyItem :=
  [("a", .pstr "x"), ("n", .pint (-7)), ("f", .pfloat ⟨"1.5"⟩)]

/-- C10 witness: the round trip evaluated on `itemF`. -/
theorem C10_convert_round_trip_and_drop_witness :
    simpleItem pfOne itemF = true ∧
    (convert_from_dynamodb_format pfOne (convert_to_dynamodb_format itemF) =
        some itemF ∧
      (∀ (k : String) (item2 : PyItem),
        convert_to_dynamodb_format ((k, .pother) :: item2) =
          convert_to_dynamodb_format item2)) :=
  ⟨by decide, C10_convert_round_trip_and_drop pfOne itemF (by decide)⟩
